import Mathlib

/-!
Verification of the deal.II DoF-tools / matrix-free core against its
natural-language specification.

The definitions below are a shallow embedding of the C++ sources
(dof_tools.cc and matrix_free.h): mesh, finite-element and vector objects
are abstracted to the exact interface the embedded routines consume
(per-cell DoF index lists, face navigation, constraint tables), and every
loop of the source is reproduced as a fold in the same nesting and order.
Floating-point weights are modelled by rational numbers, so equality tests
of the source (comparison with 0 and with 1) are exact.
-/

set_option maxHeartbeats 1000000
set_option synthInstance.maxSize 2000
set_option linter.unusedVariables false

namespace DealII

/-- Mesh and finite-element interface used by the cell-based sparsity
builders of dof_tools.cc: active cells are numbered 0..nCells-1, each cell
exposes dofsPerCell global DoF indices (cell->get_dof_indices), and the
finite element assigns every local DoF a vector component
(fe.system_to_component_index(i).first). -/
structure DoFMesh where
  nCells : Nat
  dofsPerCell : Nat
  cellDof : Nat → Nat → Nat
  nComponents : Nat
  systemToComponent : Nat → Nat

/-- A SparsityPattern is the set of (row, column) pairs recorded so far;
SparsityPattern::add is idempotent insertion. -/
abbrev SparsityPattern := Finset (Nat × Nat)

/-- DoFTools::make_sparsity_pattern (plain variant): for every active cell,
insert the full local-by-local cross product of its DoF indices. -/
def make_sparsity_pattern (M : DoFMesh) (sparsity : SparsityPattern) :
    SparsityPattern :=
  (List.range M.nCells).foldl
    (fun sp c =>
      (List.range M.dofsPerCell).foldl
        (fun sp i =>
          (List.range M.dofsPerCell).foldl
            (fun sp j => insert (M.cellDof c i, M.cellDof c j) sp) sp)
        sp)
    sparsity

/-- DoFTools::make_sparsity_pattern (component-mask variant): the per-dof
mask table dof_mask is precomputed once from the component mask and the
system-to-component map, then every cell inserts only the pairs whose
dof_mask entry is true. -/
def make_sparsity_pattern_masked (M : DoFMesh) (mask : List (List Bool))
    (sparsity : SparsityPattern) : SparsityPattern :=
  let dof_mask : List (List Bool) :=
    (List.range M.dofsPerCell).map (fun i =>
      (List.range M.dofsPerCell).map (fun j =>
        ((mask.getD (M.systemToComponent i) []).getD
          (M.systemToComponent j) false)))
  (List.range M.nCells).foldl
    (fun sp c =>
      (List.range M.dofsPerCell).foldl
        (fun sp i =>
          (List.range M.dofsPerCell).foldl
            (fun sp j =>
              if (dof_mask.getD i []).getD j false then
                insert (M.cellDof c i, M.cellDof c j) sp
              else sp) sp)
        sp)
    sparsity

/-- Generic membership description of a fold that only ever inserts
elements satisfying a per-step description. -/
theorem mem_foldl_of_step {α β : Type} [DecidableEq β]
    (g : Finset β → α → Finset β) (P : α → β → Prop)
    (hg : ∀ s a x, x ∈ g s a ↔ x ∈ s ∨ P a x) :
    ∀ (l : List α) (s : Finset β) (x : β),
      x ∈ l.foldl g s ↔ x ∈ s ∨ ∃ a ∈ l, P a x := by
  intro l
  induction l with
  | nil => simp
  | cons a t ih =>
      intro s x
      rw [List.foldl_cons, ih, hg]
      simp only [List.mem_cons]
      constructor
      · rintro ((h | h) | ⟨b, hb, hP⟩)
        · exact Or.inl h
        · exact Or.inr ⟨a, Or.inl rfl, h⟩
        · exact Or.inr ⟨b, Or.inr hb, hP⟩
      · rintro (h | ⟨b, hb | hb, hP⟩)
        · exact Or.inl (Or.inl h)
        · exact Or.inl (Or.inr (hb ▸ hP))
        · exact Or.inr ⟨b, hb, hP⟩

/-- Membership in the plain sparsity pattern: exactly the initial entries
plus one entry per cell and per ordered pair of local DoFs. -/
theorem mem_make_sparsity_pattern (M : DoFMesh) (sp : SparsityPattern)
    (x : Nat × Nat) :
    x ∈ make_sparsity_pattern M sp ↔
      x ∈ sp ∨ ∃ c < M.nCells, ∃ i < M.dofsPerCell, ∃ j < M.dofsPerCell,
        x = (M.cellDof c i, M.cellDof c j) := by
  unfold make_sparsity_pattern
  rw [mem_foldl_of_step _
    (fun c x => ∃ i < M.dofsPerCell, ∃ j < M.dofsPerCell,
      x = (M.cellDof c i, M.cellDof c j))]
  · simp [List.mem_range]
  · intro s c x
    rw [mem_foldl_of_step _
      (fun i x => ∃ j < M.dofsPerCell, x = (M.cellDof c i, M.cellDof c j))]
    · simp [List.mem_range]
    · intro s i x
      rw [mem_foldl_of_step _
        (fun j x => x = (M.cellDof c i, M.cellDof c j))]
      · simp [List.mem_range]
      · intro s j x
        simp [Finset.mem_insert, or_comm]

/-- Looking up a position below the bound in a table built by mapping over
List.range yields the generating function's value there. -/
theorem getD_map_range {β : Type} (n : Nat) (f : Nat → β) (d : β) (i : Nat)
    (hi : i < n) : ((List.range n).map f).getD i d = f i := by
  simp [List.getD, List.getElem?_map, List.getElem?_range, hi]

/-- The precomputed dof-mask table of the masked sparsity builder agrees
with the direct component-mask expression on in-range local DoF pairs. -/
theorem dof_mask_lookup (M : DoFMesh) (mask : List (List Bool))
    (i j : Nat) (hi : i < M.dofsPerCell) (hj : j < M.dofsPerCell) :
    ((((List.range M.dofsPerCell).map (fun i =>
        (List.range M.dofsPerCell).map (fun j =>
          ((mask.getD (M.systemToComponent i) []).getD
            (M.systemToComponent j) false)))).getD i []).getD j false) =
    ((mask.getD (M.systemToComponent i) []).getD
      (M.systemToComponent j) false) := by
  rw [getD_map_range _ _ _ _ hi, getD_map_range _ _ _ _ hj]

/-- Membership in the masked sparsity pattern: initial entries plus the
per-cell pairs whose precomputed dof-mask entry is true. -/
theorem mem_make_sparsity_pattern_masked (M : DoFMesh)
    (mask : List (List Bool)) (sp : SparsityPattern) (x : Nat × Nat) :
    x ∈ make_sparsity_pattern_masked M mask sp ↔
      x ∈ sp ∨ ∃ c < M.nCells, ∃ i < M.dofsPerCell, ∃ j < M.dofsPerCell,
        ((mask.getD (M.systemToComponent i) []).getD
          (M.systemToComponent j) false) = true ∧
        x = (M.cellDof c i, M.cellDof c j) := by
  unfold make_sparsity_pattern_masked
  simp only []
  set T : List (List Bool) :=
    (List.range M.dofsPerCell).map (fun i =>
      (List.range M.dofsPerCell).map (fun j =>
        ((mask.getD (M.systemToComponent i) []).getD
          (M.systemToComponent j) false))) with hT
  rw [mem_foldl_of_step _
    (fun c x => ∃ i < M.dofsPerCell, ∃ j < M.dofsPerCell,
      ((T.getD i []).getD j false) = true ∧
      x = (M.cellDof c i, M.cellDof c j))]
  · constructor
    · rintro (h | ⟨c, hc, i, hi, j, hj, hm, hx⟩)
      · exact Or.inl h
      · refine Or.inr ⟨c, List.mem_range.mp hc, i, hi, j, hj, ?_, hx⟩
        rw [← dof_mask_lookup M mask i j hi hj]
        exact hm
    · rintro (h | ⟨c, hc, i, hi, j, hj, hm, hx⟩)
      · exact Or.inl h
      · refine Or.inr ⟨c, List.mem_range.mpr hc, i, hi, j, hj, ?_, hx⟩
        rw [hT, dof_mask_lookup M mask i j hi hj]
        exact hm
  · intro s c x
    rw [mem_foldl_of_step _
      (fun i x => ∃ j < M.dofsPerCell,
        ((T.getD i []).getD j false) = true ∧
        x = (M.cellDof c i, M.cellDof c j))]
    · simp [List.mem_range]
    · intro s i x
      rw [mem_foldl_of_step _
        (fun j x =>
          ((T.getD i []).getD j false) = true ∧
          x = (M.cellDof c i, M.cellDof c j))]
      · constructor
        · rintro (h | ⟨j, hj, hP⟩)
          · exact Or.inl h
          · exact Or.inr ⟨j, List.mem_range.mp hj, hP⟩
        · rintro (h | ⟨j, hj, hP⟩)
          · exact Or.inl h
          · exact Or.inr ⟨j, List.mem_range.mpr hj, hP⟩
      · intro s j x
        by_cases hm : ((T[i]?.getD []))[j]?.getD false = true
        · simp [List.getD, hm, Finset.mem_insert, or_comm]
        · simp [List.getD, hm]

/-- C7: the plain sparsity pattern built by make_sparsity_pattern is
symmetric: (i, j) is inserted if and only if (j, i) is inserted, for every
mesh and finite element. -/
theorem make_sparsity_pattern_symmetric (M : DoFMesh) (i j : Nat) :
    (i, j) ∈ make_sparsity_pattern M ∅ ↔
    (j, i) ∈ make_sparsity_pattern M ∅ := by
  rw [mem_make_sparsity_pattern, mem_make_sparsity_pattern]
  simp only [Finset.not_mem_empty, false_or, Prod.mk.injEq]
  constructor
  · rintro ⟨c, hc, a, ha, b, hb, hi, hj⟩
    exact ⟨c, hc, b, hb, a, ha, hj, hi⟩
  · rintro ⟨c, hc, a, ha, b, hb, hj, hi⟩
    exact ⟨c, hc, b, hb, a, ha, hi, hj⟩

/-- C8: for every component mask satisfying the precondition (square table
whose side is the number of FE components), the entries inserted by the
masked make_sparsity_pattern variant form a subset of the entries inserted
by the plain variant on the same mesh and finite element. -/
theorem make_sparsity_pattern_masked_subset (M : DoFMesh)
    (mask : List (List Bool))
    (hsq : mask.length = M.nComponents ∧
      ∀ row ∈ mask, row.length = M.nComponents) :
    make_sparsity_pattern_masked M mask ∅ ⊆ make_sparsity_pattern M ∅ := by
  intro x hx
  rw [mem_make_sparsity_pattern_masked] at hx
  rw [mem_make_sparsity_pattern]
  rcases hx with h | ⟨c, hc, i, hi, j, hj, _, hx⟩
  · exact Or.inl h
  · exact Or.inr ⟨c, hc, i, hi, j, hj, hx⟩

/-- The DoFHandler::invalid_dof_index sentinel (the maximal unsigned int),
marking DoFs that have not been assigned a (boundary) index. -/
def invalid_dof_index : Nat := 4294967295

/-- Mesh interface used by the boundary sparsity builders: faces are
numbered 0..nFaces-1, each knows whether it lies on the boundary, its
boundary indicator, and its dofsPerFace global DoF indices
(face->get_dof_indices). -/
structure BoundaryMesh where
  nDofs : Nat
  nBoundaryDofs : Nat
  dofsPerFace : Nat
  nFaces : Nat
  faceAtBoundary : Nat → Bool
  faceBoundaryIndicator : Nat → Nat
  faceDof : Nat → Nat → Nat

/-- DoFTools::make_boundary_sparsity_pattern: after the size assertions
(mapping length, sparsity dimensions, and max_element of the mapping equal
to n_rows - 1), every boundary face inserts the cross product of its DoFs
translated through dof_to_boundary_mapping. Assertion failures are
modelled as errors. -/
def make_boundary_sparsity_pattern (M : BoundaryMesh)
    (dof_to_boundary_mapping : List Nat) (spRows spCols : Nat)
    (sparsity : SparsityPattern) : Except String SparsityPattern := do
  if dof_to_boundary_mapping.length = M.nDofs then pure ()
    else throw "ExcInternalError"
  if spRows = M.nBoundaryDofs then pure () else throw "ExcDimensionMismatch"
  if spCols = M.nBoundaryDofs then pure () else throw "ExcDimensionMismatch"
  if dof_to_boundary_mapping.foldl Nat.max 0 = spRows - 1 then pure ()
    else throw "ExcInternalError"
  (List.range M.nFaces).foldlM
    (fun sp face =>
      if M.faceAtBoundary face then do
        let dofs_on_this_face := (List.range M.dofsPerFace).map (M.faceDof face)
        if dofs_on_this_face.foldl Nat.min invalid_dof_index ≠
            invalid_dof_index then pure () else throw "ExcInternalError"
        pure ((List.range M.dofsPerFace).foldl
          (fun sp i =>
            (List.range M.dofsPerFace).foldl
              (fun sp j =>
                insert (dof_to_boundary_mapping.getD
                          (dofs_on_this_face.getD i 0) 0,
                        dof_to_boundary_mapping.getD
                          (dofs_on_this_face.getD j 0) 0) sp) sp)
          sp)
      else pure sp)
    sparsity

/-- DoFTools::make_boundary_sparsity_pattern (variant restricted by a map
of boundary indicators): indicator 255 is forbidden, the max_element check
skips invalid_dof_index entries, and only faces whose indicator occurs in
the map contribute. -/
def make_boundary_sparsity_pattern_indicators (M : BoundaryMesh)
    (boundary_indicators : List Nat) (dof_to_boundary_mapping : List Nat)
    (spRows spCols : Nat) (sparsity : SparsityPattern) :
    Except String SparsityPattern := do
  if dof_to_boundary_mapping.length = M.nDofs then pure ()
    else throw "ExcInternalError"
  if boundary_indicators.contains 255 then
    throw "ExcInvalidBoundaryIndicator" else pure ()
  if spRows = M.nBoundaryDofs then pure () else throw "ExcDimensionMismatch"
  if spCols = M.nBoundaryDofs then pure () else throw "ExcDimensionMismatch"
  if (dof_to_boundary_mapping.foldl
        (fun m v => if v ≠ invalid_dof_index ∧ v > m then v else m) 0) =
      spRows - 1 then pure ()
    else throw "ExcInternalError"
  (List.range M.nFaces).foldlM
    (fun sp face =>
      if boundary_indicators.contains (M.faceBoundaryIndicator face) then do
        let dofs_on_this_face := (List.range M.dofsPerFace).map (M.faceDof face)
        if dofs_on_this_face.foldl Nat.min invalid_dof_index ≠
            invalid_dof_index then pure () else throw "ExcInternalError"
        pure ((List.range M.dofsPerFace).foldl
          (fun sp i =>
            (List.range M.dofsPerFace).foldl
              (fun sp j =>
                insert (dof_to_boundary_mapping.getD
                          (dofs_on_this_face.getD i 0) 0,
                        dof_to_boundary_mapping.getD
                          (dofs_on_this_face.getD j 0) 0) sp) sp)
          sp)
      else pure sp)
    sparsity

/-- ConstraintMatrix contents: constraint lines in the order they were
registered, each holding the constrained DoF and its weighted entries. -/
abbrev ConstraintList := List (Nat × List (Nat × ℚ))

/-- DoFTools::make_boundary_sparsity_pattern, 1-d specialization: the whole
body is Assert (false, ExcInternalError()). -/
def make_boundary_sparsity_pattern_1d (dof_to_boundary_mapping : List Nat)
    (sparsity : SparsityPattern) : Except String SparsityPattern :=
  throw "ExcInternalError"

/-- DoFTools::make_boundary_sparsity_pattern, 1-d specialization of the
boundary-indicator variant: also Assert (false, ExcInternalError()). -/
def make_boundary_sparsity_pattern_1d_indicators
    (boundary_indicators : List Nat) (dof_to_boundary_mapping : List Nat)
    (sparsity : SparsityPattern) : Except String SparsityPattern :=
  throw "ExcInternalError"

/-- DoFTools::make_hanging_node_constraints, 1-d specialization: nothing to
be done, the constraint matrix is returned unchanged. -/
def make_hanging_node_constraints_1d (constraints : ConstraintList) :
    ConstraintList :=
  constraints

/-- C5 counterexample: on a 1-d mesh the boundary-sparsity operation does
not return normally with an unchanged pattern; it signals
ExcInternalError. -/
theorem boundary_sparsity_1d_not_silent :
    make_boundary_sparsity_pattern_1d [] ∅ = .error "ExcInternalError" ∧
    make_boundary_sparsity_pattern_1d [] ∅ ≠ .ok ∅ := by
  constructor
  · rfl
  · intro h
    simp [make_boundary_sparsity_pattern_1d, throw, throwThe,
      MonadExceptOf.throw] at h

/-- C5 amended: in 1-d the hanging-node constraint operation is a no-op
returning its input unchanged, while both 1-d boundary-sparsity
specializations fail with the internal-error assertion instead of
returning an empty result (and no 1-d flux-sparsity instantiation
exists). -/
theorem make_hanging_node_constraints_1d_noop_boundary_1d_asserts
    (mapping : List Nat) (indicators : List Nat) (sp : SparsityPattern)
    (constraints : ConstraintList) :
    make_hanging_node_constraints_1d constraints = constraints ∧
    make_boundary_sparsity_pattern_1d mapping sp =
      .error "ExcInternalError" ∧
    make_boundary_sparsity_pattern_1d_indicators indicators mapping sp =
      .error "ExcInternalError" := by
  exact ⟨rfl, rfl, rfl⟩

/-- Concrete boundary mesh for C6: three DoFs, all on the single boundary
face, and n_boundary_dofs = 3. -/
def boundaryMesh3 : BoundaryMesh where
  nDofs := 3
  nBoundaryDofs := 3
  dofsPerFace := 3
  nFaces := 1
  faceAtBoundary := fun _ => true
  faceBoundaryIndicator := fun _ => 0
  faceDof := fun _ i => i

/-- C6 counterexample: the mapping [2, 2, 2] is not injective on boundary
DoFs (its codomain misses 0 and 1), yet the boundary sparsity builder
passes its internal checks (max element = n_rows - 1) and silently
produces a pattern with a single effective row instead of failing. -/
theorem boundary_map_injectivity_not_checked :
    (make_boundary_sparsity_pattern boundaryMesh3 [2, 2, 2] 3 3 ∅ =
      .ok {(2, 2)}) ∧
    [2, 2, 2].getD 0 0 = [2, 2, 2].getD 1 0 := by
  constructor
  · rfl
  · rfl

/-- C6 amended: the guard actually enforced before any insertion is only
that the maximum of dof_to_boundary_mapping equals n_boundary_dofs - 1;
whenever that maximum differs the internal-consistency failure path
triggers before any entry is inserted. -/
theorem boundary_sparsity_max_check (M : BoundaryMesh)
    (mapping : List Nat)
    (hlen : mapping.length = M.nDofs)
    (hmax : mapping.foldl Nat.max 0 ≠ M.nBoundaryDofs - 1) :
    make_boundary_sparsity_pattern M mapping M.nBoundaryDofs
      M.nBoundaryDofs ∅ = .error "ExcInternalError" := by
  unfold make_boundary_sparsity_pattern
  simp only [hlen, hmax, if_true, if_false, ite_self, if_neg hmax,
    if_pos rfl, throw, throwThe, MonadExceptOf.throw]
  rfl

/-- Witness for C6's amended theorem: the mapping [0, 0, 0] never reaches
boundary index 2, so the builder fails before inserting anything. -/
theorem boundary_sparsity_max_check_witness :
    ([0, 0, 0].length = boundaryMesh3.nDofs ∧
      [0, 0, 0].foldl Nat.max 0 ≠ boundaryMesh3.nBoundaryDofs - 1) ∧
    make_boundary_sparsity_pattern boundaryMesh3 [0, 0, 0]
      boundaryMesh3.nBoundaryDofs boundaryMesh3.nBoundaryDofs ∅ =
      .error "ExcInternalError" :=
  ⟨⟨by decide, by decide⟩,
    boundary_sparsity_max_check boundaryMesh3 [0, 0, 0] (by decide)
      (by decide)⟩

/-- A concrete two-cell mesh with a scalar finite element, used as witness
input: cells 0 and 1 with two DoFs each, sharing DoF 1. -/
def witnessMesh : DoFMesh where
  nCells := 2
  dofsPerCell := 2
  cellDof := fun c i => c + i
  nComponents := 1
  systemToComponent := fun _ => 0

/-- Witness for C8: the full mask on the witness mesh satisfies the
precondition and the masked pattern is contained in the plain one. -/
theorem make_sparsity_pattern_masked_subset_witness :
    ([[true]].length = witnessMesh.nComponents ∧
      ∀ row ∈ [[true]], row.length = witnessMesh.nComponents) ∧
    make_sparsity_pattern_masked witnessMesh [[true]] ∅ ⊆
      make_sparsity_pattern witnessMesh ∅ :=
  ⟨by decide, make_sparsity_pattern_masked_subset witnessMesh [[true]]
    (by decide)⟩

/-! ### MatrixFree scratch-data pool (matrix_free.h) -/

/-- The MatrixFree scratch pool: a list of scratch buffers, each an in-use
flag paired with the buffer's identity (modelling pointer identity of the
AlignedVector payload), plus a supply of fresh identities for the buffers
push_front allocates. -/
structure ScratchPool where
  buffers : List (Bool × Nat)
  nextId : Nat

/-- The scan of acquire_scratch_data: return the first buffer whose in-use
flag is false, setting the flag, or none when every buffer is taken. -/
def acquireAux : List (Bool × Nat) → Option (Nat × List (Bool × Nat))
  | [] => none
  | (false, c) :: rest => some (c, (true, c) :: rest)
  | (true, c) :: rest =>
      match acquireAux rest with
      | some (r, l) => some (r, (true, c) :: l)
      | none => none

/-- MatrixFree::acquire_scratch_data: reuse the first free buffer, or
push_front a brand new one already marked in use. -/
def acquire_scratch_data (p : ScratchPool) : Nat × ScratchPool :=
  match acquireAux p.buffers with
  | some (c, bufs) => (c, { p with buffers := bufs })
  | none => (p.nextId, { buffers := (true, p.nextId) :: p.buffers,
                         nextId := p.nextId + 1 })

/-- The scan of release_scratch_data: find the buffer with the given
identity, assert it was in use, clear the flag; a pointer not in the pool
is the AssertThrow failure. -/
def releaseAux : List (Bool × Nat) → Nat → Except String (List (Bool × Nat))
  | [], _ => .error "Tried to release invalid scratch pad"
  | (flag, c) :: rest, s =>
      if c = s then
        if flag then .ok ((false, c) :: rest)
        else .error "ExcInternalError"
      else
        match releaseAux rest s with
        | .ok rest2 => .ok ((flag, c) :: rest2)
        | .error e => .error e

/-- MatrixFree::release_scratch_data. -/
def release_scratch_data (p : ScratchPool) (scratch : Nat) :
    Except String ScratchPool :=
  match releaseAux p.buffers scratch with
  | .ok bufs => .ok { p with buffers := bufs }
  | .error e => .error e

/-- The in-use flag currently stored for a buffer identity, none when the
identity is not a member of the pool. -/
def lookupFlag (l : List (Bool × Nat)) (b : Nat) : Option Bool :=
  (l.find? (fun x => x.2 == b)).map Prod.fst

/-- Pool well-formedness: buffer identities are pairwise distinct and below
the fresh-identity supply. -/
def PoolWF (p : ScratchPool) : Prop :=
  (p.buffers.map Prod.snd).Nodup ∧ ∀ x ∈ p.buffers, x.2 < p.nextId

instance (p : ScratchPool) : Decidable (PoolWF p) := by
  unfold PoolWF
  infer_instance

/-- A successful acquire scan preserves the identities of the pool. -/
theorem acquireAux_ids : ∀ (l : List (Bool × Nat)) (b : Nat)
    (l' : List (Bool × Nat)), acquireAux l = some (b, l') →
    l'.map Prod.snd = l.map Prod.snd := by
  intro l
  induction l with
  | nil => intro b l' h; simp [acquireAux] at h
  | cons x rest ih =>
      intro b l' h
      obtain ⟨flag, c⟩ := x
      cases flag
      · simp only [acquireAux, Option.some.injEq, Prod.mk.injEq] at h
        obtain ⟨hb, hl⟩ := h
        subst hb
        subst hl
        simp
      · simp only [acquireAux] at h
        cases heq : acquireAux rest with
        | none => rw [heq] at h; simp at h
        | some q =>
            obtain ⟨r, l2⟩ := q
            rw [heq] at h
            simp only [Option.some.injEq, Prod.mk.injEq] at h
            obtain ⟨hb, hl⟩ := h
            subst hb
            subst hl
            simp [ih _ _ heq]

/-- The buffer returned by a successful acquire scan had flag false. -/
theorem acquireAux_flag_was_false : ∀ (l : List (Bool × Nat)) (b : Nat)
    (l' : List (Bool × Nat)), acquireAux l = some (b, l') →
    (false, b) ∈ l := by
  intro l
  induction l with
  | nil => intro b l' h; simp [acquireAux] at h
  | cons x rest ih =>
      intro b l' h
      obtain ⟨flag, c⟩ := x
      cases flag
      · simp only [acquireAux, Option.some.injEq, Prod.mk.injEq] at h
        obtain ⟨hb, _⟩ := h
        subst hb
        exact List.mem_cons_self _ _
      · simp only [acquireAux] at h
        cases heq : acquireAux rest with
        | none => rw [heq] at h; simp at h
        | some q =>
            obtain ⟨r, l2⟩ := q
            rw [heq] at h
            simp only [Option.some.injEq, Prod.mk.injEq] at h
            obtain ⟨hb, _⟩ := h
            subst hb
            exact List.mem_cons_of_mem _ (ih _ _ heq)

/-- If the acquire scan finds no free buffer then every flag is true. -/
theorem acquireAux_none : ∀ (l : List (Bool × Nat)), acquireAux l = none →
    ∀ x ∈ l, x.1 = true := by
  intro l
  induction l with
  | nil => intro h x hx; simp at hx
  | cons x rest ih =>
      intro h y hy
      obtain ⟨flag, c⟩ := x
      cases flag
      · simp [acquireAux] at h
      · simp only [acquireAux] at h
        cases heq : acquireAux rest with
        | none =>
            rcases List.mem_cons.mp hy with hy | hy
            · rw [hy]
            · exact ih heq y hy
        | some q => rw [heq] at h; simp at h

/-- With distinct identities, membership of a flagged entry determines the
lookup result. -/
theorem lookupFlag_of_mem : ∀ (l : List (Bool × Nat)) (flag : Bool)
    (b : Nat), (l.map Prod.snd).Nodup → (flag, b) ∈ l →
    lookupFlag l b = some flag := by
  intro l
  induction l with
  | nil => intro flag b _ h; simp at h
  | cons x rest ih =>
      intro flag b hnd hmem
      obtain ⟨f, c⟩ := x
      simp only [List.map_cons, List.nodup_cons] at hnd
      rcases List.mem_cons.mp hmem with hmem | hmem
      · rw [Prod.mk.injEq] at hmem
        obtain ⟨hf, hc⟩ := hmem
        subst hf
        subst hc
        simp [lookupFlag]
      · have hcb : c ≠ b := by
          intro hcb
          exact hnd.1 (by
            rw [hcb]
            exact List.mem_map.mpr ⟨(flag, b), hmem, rfl⟩)
        simp only [lookupFlag, List.find?_cons]
        have : ((f, c).2 == b) = false := by
          simp [hcb]
        rw [this]
        exact ih flag b hnd.2 hmem

/-- Identities absent from the pool look up to none. -/
theorem lookupFlag_none : ∀ (l : List (Bool × Nat)) (b : Nat),
    (∀ x ∈ l, x.2 ≠ b) → lookupFlag l b = none := by
  intro l b h
  unfold lookupFlag
  rw [List.find?_eq_none.mpr]
  · rfl
  · intro x hx
    simp [h x hx]

/-- A successful acquire leaves the returned buffer flagged in use. -/
theorem acquireAux_lookup_self : ∀ (l : List (Bool × Nat)) (b : Nat)
    (l' : List (Bool × Nat)), (l.map Prod.snd).Nodup →
    acquireAux l = some (b, l') → lookupFlag l' b = some true := by
  intro l
  induction l with
  | nil => intro b l' _ h; simp [acquireAux] at h
  | cons x rest ih =>
      intro b l' hnd h
      obtain ⟨flag, c⟩ := x
      simp only [List.map_cons, List.nodup_cons] at hnd
      cases flag
      · simp only [acquireAux, Option.some.injEq, Prod.mk.injEq] at h
        obtain ⟨hb, hl⟩ := h
        subst hb
        subst hl
        simp [lookupFlag]
      · simp only [acquireAux] at h
        cases heq : acquireAux rest with
        | none => rw [heq] at h; simp at h
        | some q =>
            obtain ⟨r, l2⟩ := q
            rw [heq] at h
            simp only [Option.some.injEq, Prod.mk.injEq] at h
            obtain ⟨hb, hl⟩ := h
            subst hl
            rw [hb] at heq
            have hcb : c ≠ b := by
              intro hcb
              exact hnd.1 (by
                rw [hcb]
                exact List.mem_map.mpr
                  ⟨(false, b), acquireAux_flag_was_false _ _ _ heq, rfl⟩)
            simp only [lookupFlag, List.find?_cons]
            have : (((true : Bool), c).2 == b) = false := by simp [hcb]
            rw [this]
            exact ih b l2 hnd.2 heq

/-- Releasing a buffer that is in use succeeds and clears its flag. -/
theorem releaseAux_ok : ∀ (l : List (Bool × Nat)) (b : Nat),
    lookupFlag l b = some true →
    ∃ l', releaseAux l b = .ok l' ∧ lookupFlag l' b = some false := by
  intro l
  induction l with
  | nil => intro b h; simp [lookupFlag] at h
  | cons x rest ih =>
      intro b h
      obtain ⟨f, c⟩ := x
      by_cases hc : c = b
      · subst hc
        have hf : f = true := by
          simpa [lookupFlag] using h
        subst hf
        refine ⟨(false, c) :: rest, ?_, ?_⟩
        · simp [releaseAux]
        · simp [lookupFlag]
      · have htail : lookupFlag rest b = some true := by
          simpa [lookupFlag, List.find?_cons, hc] using h
        obtain ⟨l', hrel, hlook⟩ := ih b htail
        refine ⟨(f, c) :: l', ?_, ?_⟩
        · simp [releaseAux, hc, hrel]
        · simpa [lookupFlag, List.find?_cons, hc] using hlook

/-- Releasing an identity that is not a member of the pool fails with the
AssertThrow message. -/
theorem releaseAux_invalid : ∀ (l : List (Bool × Nat)) (b : Nat),
    lookupFlag l b = none →
    releaseAux l b = .error "Tried to release invalid scratch pad" := by
  intro l
  induction l with
  | nil => intro b _; rfl
  | cons x rest ih =>
      intro b h
      obtain ⟨f, c⟩ := x
      have hc : c ≠ b := by
        intro hc
        simp [lookupFlag, List.find?_cons, hc] at h
      have htail : lookupFlag rest b = none := by
        simpa [lookupFlag, List.find?_cons, hc] using h
      simp [releaseAux, hc, ih b htail]

/-- MatrixFree::acquire_scratch_data returns a buffer that was free (or
fresh) and marks it in use; hence two acquisitions without an intervening
release never return the same buffer. Release of an acquired buffer makes
it available again, and releasing an identity outside the pool fails with
the message of the AssertThrow. -/
theorem scratch_pool_acquire_release (p : ScratchPool) (h : PoolWF p)
    (b : Nat) :
    (lookupFlag (acquire_scratch_data p).2.buffers
        (acquire_scratch_data p).1 = some true ∧
      (lookupFlag p.buffers (acquire_scratch_data p).1 = some false ∨
        lookupFlag p.buffers (acquire_scratch_data p).1 = none)) ∧
    (acquire_scratch_data p).1 ≠
      (acquire_scratch_data (acquire_scratch_data p).2).1 ∧
    (lookupFlag p.buffers b = some true →
      ∃ p', release_scratch_data p b = .ok p' ∧
        lookupFlag p'.buffers b = some false) ∧
    (lookupFlag p.buffers b = none →
      release_scratch_data p b =
        .error "Tried to release invalid scratch pad") := by
  obtain ⟨hnd, hbound⟩ := h
  refine ⟨?_, ?_, ?_, ?_⟩
  · cases heq : acquireAux p.buffers with
    | some q =>
        obtain ⟨c, bufs⟩ := q
        constructor
        · simp only [acquire_scratch_data, heq]
          exact acquireAux_lookup_self _ _ _ hnd heq
        · left
          simp only [acquire_scratch_data, heq]
          exact lookupFlag_of_mem _ _ _ hnd
            (acquireAux_flag_was_false _ _ _ heq)
    | none =>
        constructor
        · simp [acquire_scratch_data, heq, lookupFlag]
        · right
          simp only [acquire_scratch_data, heq]
          exact lookupFlag_none _ _
            (fun x hx he => absurd (he ▸ hbound x hx) (lt_irrefl _))
  · cases heq1 : acquireAux p.buffers with
    | some q =>
        obtain ⟨b1, l1⟩ := q
        have hids : l1.map Prod.snd = p.buffers.map Prod.snd :=
          acquireAux_ids _ _ _ heq1
        have hnd1 : (l1.map Prod.snd).Nodup := hids ▸ hnd
        simp only [acquire_scratch_data, heq1]
        cases heq2 : acquireAux l1 with
        | some q2 =>
            obtain ⟨b2, l2⟩ := q2
            simp only [heq2]
            intro hb12
            have h1 : lookupFlag l1 b1 = some true :=
              acquireAux_lookup_self p.buffers b1 l1 hnd heq1
            have h2 : lookupFlag l1 b2 = some false :=
              lookupFlag_of_mem _ _ _ hnd1
                (acquireAux_flag_was_false _ _ _ heq2)
            rw [← hb12, h1] at h2
            simp at h2
        | none =>
            simp only [heq2]
            have hmem : (false, b1) ∈ p.buffers :=
              acquireAux_flag_was_false _ _ _ heq1
            have := hbound _ hmem
            exact fun he => absurd (he ▸ this) (lt_irrefl _)
    | none =>
        simp only [acquire_scratch_data, heq1]
        cases heq2 : acquireAux ((true, p.nextId) :: p.buffers) with
        | some q2 =>
            obtain ⟨b2, l2⟩ := q2
            exfalso
            have hmem : (false, b2) ∈ (true, p.nextId) :: p.buffers :=
              acquireAux_flag_was_false _ _ _ heq2
            rcases List.mem_cons.mp hmem with hmem | hmem
            · exact Bool.false_ne_true (congrArg Prod.fst hmem)
            · exact Bool.false_ne_true (acquireAux_none _ heq1 _ hmem)
        | none =>
            simp only [heq2]
            omega
  · intro hb
    obtain ⟨l', hrel, hlook⟩ := releaseAux_ok _ _ hb
    exact ⟨{ p with buffers := l' }, by simp [release_scratch_data, hrel],
      hlook⟩
  · intro hb
    simp [release_scratch_data, releaseAux_invalid _ _ hb]

/-- A concrete scratch pool with one free buffer, for the witness. -/
def scratchPool0 : ScratchPool where
  buffers := [(false, 0)]
  nextId := 1

/-- Witness for C10: the one-buffer pool is well formed and satisfies the
acquire/release discipline at buffer identity 5. -/
theorem scratch_pool_acquire_release_witness :
    PoolWF scratchPool0 ∧
    ((lookupFlag (acquire_scratch_data scratchPool0).2.buffers
        (acquire_scratch_data scratchPool0).1 = some true ∧
      (lookupFlag scratchPool0.buffers
          (acquire_scratch_data scratchPool0).1 = some false ∨
        lookupFlag scratchPool0.buffers
          (acquire_scratch_data scratchPool0).1 = none)) ∧
    (acquire_scratch_data scratchPool0).1 ≠
      (acquire_scratch_data (acquire_scratch_data scratchPool0).2).1 ∧
    (lookupFlag scratchPool0.buffers 5 = some true →
      ∃ p', release_scratch_data scratchPool0 5 = .ok p' ∧
        lookupFlag p'.buffers 5 = some false) ∧
    (lookupFlag scratchPool0.buffers 5 = none →
      release_scratch_data scratchPool0 5 =
        .error "Tried to release invalid scratch pad")) :=
  ⟨by decide, scratch_pool_acquire_release scratchPool0 (by decide) 5⟩

/-! ### Generic loop-shape lemmas -/

/-- A push_back loop is the same as appending the mapped list. -/
theorem foldl_append_singleton {α β : Type} (L : List α) (g : α → β) :
    ∀ acc : List β,
      L.foldl (fun acc x => acc ++ [g x]) acc = acc ++ L.map g := by
  induction L with
  | nil => intro acc; simp
  | cons x t ih => intro acc; simp [ih]

/-- A loop appending a block per element is appending the joined blocks. -/
theorem foldl_append_blocks {α β : Type} (L : List α) (g : α → List β) :
    ∀ acc : List β,
      L.foldl (fun acc x => acc ++ g x) acc = acc ++ (L.map g).flatten := by
  induction L with
  | nil => intro acc; simp
  | cons x t ih => intro acc; simp [ih]

/-- A guarded block-appending loop is appending the joined blocks of the
filtered list. -/
theorem foldl_append_filter {α β : Type} (L : List α) (p : α → Prop)
    [DecidablePred p] (g : α → List β) :
    ∀ acc : List β,
      L.foldl (fun acc x => if p x then acc ++ g x else acc) acc =
        acc ++ ((L.filter (fun x => decide (p x))).map g).flatten := by
  induction L with
  | nil => intro acc; simp
  | cons x t ih =>
      intro acc
      by_cases hp : p x
      · simp [hp, ih]
      · simp [hp, ih]

/-- A monadic fold whose body never fails is the pure fold. -/
theorem foldlM_ok {ε σ α : Type} (f : σ → α → Except ε σ) (g : σ → α → σ)
    (L : List α) (h : ∀ s a, a ∈ L → f s a = .ok (g s a)) :
    ∀ s : σ, L.foldlM f s = .ok (L.foldl g s) := by
  induction L with
  | nil => intro s; rfl
  | cons a t ih =>
      intro s
      have hs := h s a (List.mem_cons_self _ _)
      simp only [List.foldlM, hs, List.foldl_cons]
      exact ih (fun s a ha => h s a (List.mem_cons_of_mem _ ha)) (g s a)

/-! ### 2-d hanging-node constraints (dof_tools.cc) -/

/-- Finite element data used by the 2-d hanging-node constraint deriver:
dof counts per vertex and per line, plus the static constraint table
fe.constraints() with its row count m and column count n. -/
structure FE2D where
  dofsPerVertex : Nat
  dofsPerLine : Nat
  constraintsRows : Nat
  constraintsCols : Nat
  constraintsTable : Nat → Nat → ℚ

/-- One line (edge) of a 2-d mesh: endpoint-vertex DoF accessor, interior
DoF accessor, and the same two accessors on each refined child. -/
structure Line2D where
  vertexDofIndex : Nat → Nat → Nat
  dofIndex : Nat → Nat
  childVertexDofIndex : Nat → Nat → Nat → Nat
  childDofIndex : Nat → Nat → Nat

/-- Mesh interface of make_hanging_node_constraints<2>: all lines of the
triangulation, the cells with their faces (as line numbers), and the
has_children test on lines. -/
structure Mesh2D where
  fe : FE2D
  nLines : Nat
  line : Nat → Line2D
  nCells : Nat
  facesPerCell : Nat
  cellFace : Nat → Nat → Nat
  lineHasChildren : Nat → Bool

/-- The first phase of make_hanging_node_constraints<2>: clear all line
user flags, then set the flag of every cell face that has children. -/
def markedLines (M : Mesh2D) : Finset Nat :=
  (List.range M.nCells).foldl
    (fun flags c =>
      (List.range M.facesPerCell).foldl
        (fun flags f =>
          if M.lineHasChildren (M.cellFace c f) then
            insert (M.cellFace c f) flags
          else flags) flags)
    ∅

/-- The mother DoF gather loop of make_hanging_node_constraints<2>: the
two endpoint-vertex blocks followed by the line-interior block. -/
def dofs_on_mother (M : Mesh2D) (l : Nat) : List Nat :=
  let dm := (List.range 2).foldl
    (fun acc vertex =>
      (List.range M.fe.dofsPerVertex).foldl
        (fun acc dof => acc ++ [(M.line l).vertexDofIndex vertex dof]) acc)
    []
  (List.range M.fe.dofsPerLine).foldl
    (fun acc dof => acc ++ [(M.line l).dofIndex dof]) dm

/-- The child DoF gather loop of make_hanging_node_constraints<2>: the
center-vertex block (vertex 1 of child 0) followed by the two child
line-interior blocks. -/
def dofs_on_children (M : Mesh2D) (l : Nat) : List Nat :=
  let dc := (List.range M.fe.dofsPerVertex).foldl
    (fun acc dof => acc ++ [(M.line l).childVertexDofIndex 0 1 dof]) []
  (List.range 2).foldl
    (fun acc child =>
      (List.range M.fe.dofsPerLine).foldl
        (fun acc dof => acc ++ [(M.line l).childDofIndex child dof]) acc)
    dc

/-- DoFTools::make_hanging_node_constraints<2>: mark refined lines, then
for each marked line check the constraint-table dimensions, gather mother
and child DoFs, and emit one constraint line per child DoF with the table
coefficients. -/
def make_hanging_node_constraints_2d (M : Mesh2D)
    (constraints : ConstraintList) : Except String ConstraintList :=
  (List.range M.nLines).foldlM
    (fun cs l =>
      if l ∈ markedLines M then
        if 2 * M.fe.dofsPerVertex + M.fe.dofsPerLine =
            M.fe.constraintsCols then
          if M.fe.dofsPerVertex + 2 * M.fe.dofsPerLine =
              M.fe.constraintsRows then
            let mother := dofs_on_mother M l
            let children := dofs_on_children M l
            .ok ((List.range children.length).foldl
              (fun cs row =>
                cs ++ [(children.getD row 0,
                  (List.range mother.length).foldl
                    (fun es i => es ++ [(mother.getD i 0,
                      M.fe.constraintsTable row i)]) [])])
              cs)
          else .error "ExcDimensionMismatch"
        else .error "ExcDimensionMismatch"
      else .ok cs)
    constraints

/-- The mother DoF list as the specification words it: the two
endpoint-vertex DoF blocks followed by the line-interior DoF block. -/
def motherSpec (M : Mesh2D) (l : Nat) : List Nat :=
  ((List.range 2).map (fun v =>
    (List.range M.fe.dofsPerVertex).map
      (fun d => (M.line l).vertexDofIndex v d))).flatten ++
  (List.range M.fe.dofsPerLine).map (fun d => (M.line l).dofIndex d)

/-- The child DoF list as the specification words it: the center-vertex
block (vertex 1 of child 0), then child 0's and child 1's interior
blocks. -/
def childrenSpec (M : Mesh2D) (l : Nat) : List Nat :=
  (List.range M.fe.dofsPerVertex).map
    (fun d => (M.line l).childVertexDofIndex 0 1 d) ++
  ((List.range 2).map (fun c =>
    (List.range M.fe.dofsPerLine).map
      (fun d => (M.line l).childDofIndex c d))).flatten

/-- The constraint lines a marked line contributes, as the specification
words it: one line per child DoF, whose entry for mother DoF i is the
constraint table value at (row, i). -/
def lineConstraintsSpec (M : Mesh2D) (l : Nat) : ConstraintList :=
  (List.range (childrenSpec M l).length).map (fun row =>
    ((childrenSpec M l).getD row 0,
      (List.range (motherSpec M l).length).map (fun i =>
        ((motherSpec M l).getD i 0, M.fe.constraintsTable row i))))

/-- The gathered mother DoF list is the specification's block order. -/
theorem dofs_on_mother_eq (M : Mesh2D) (l : Nat) :
    dofs_on_mother M l = motherSpec M l := by
  unfold dofs_on_mother motherSpec
  simp only [foldl_append_singleton]
  rw [foldl_append_blocks]
  simp

/-- The gathered child DoF list is the specification's block order. -/
theorem dofs_on_children_eq (M : Mesh2D) (l : Nat) :
    dofs_on_children M l = childrenSpec M l := by
  unfold dofs_on_children childrenSpec
  simp only [foldl_append_singleton]
  rw [foldl_append_blocks]
  simp

/-- C2: for every line marked as refined, the mother list is the two
endpoint-vertex blocks followed by the interior block, the child list is
the center-vertex block followed by the two child interior blocks, and one
constraint line per child DoF is emitted with coefficients copied verbatim
from the constraint table; the gathered list lengths agree with the
table's column and row counts exactly when the dimension assertions hold,
and a mismatch reached on a marked line is an internal-consistency
failure. -/
theorem make_hanging_node_constraints_2d_spec (M : Mesh2D)
    (cs : ConstraintList) :
    (2 * M.fe.dofsPerVertex + M.fe.dofsPerLine = M.fe.constraintsCols →
      M.fe.dofsPerVertex + 2 * M.fe.dofsPerLine = M.fe.constraintsRows →
      make_hanging_node_constraints_2d M cs =
        .ok (cs ++ (((List.range M.nLines).filter
          (fun l => decide (l ∈ markedLines M))).map
            (lineConstraintsSpec M)).flatten) ∧
      ∀ l, (motherSpec M l).length = M.fe.constraintsCols ∧
        (childrenSpec M l).length = M.fe.constraintsRows) ∧
    (¬(2 * M.fe.dofsPerVertex + M.fe.dofsPerLine = M.fe.constraintsCols ∧
        M.fe.dofsPerVertex + 2 * M.fe.dofsPerLine = M.fe.constraintsRows) →
      (∃ l0 < M.nLines, l0 ∈ markedLines M) →
      make_hanging_node_constraints_2d M cs =
        .error "ExcDimensionMismatch") := by
  have hml : ∀ l, (motherSpec M l).length =
      2 * M.fe.dofsPerVertex + M.fe.dofsPerLine := by
    intro l
    have h2 : List.range 2 = [0, 1] := rfl
    simp [motherSpec, h2]
    omega
  have hcl : ∀ l, (childrenSpec M l).length =
      M.fe.dofsPerVertex + 2 * M.fe.dofsPerLine := by
    intro l
    have h2 : List.range 2 = [0, 1] := rfl
    simp [childrenSpec, h2]
    omega
  constructor
  · intro hn hm
    constructor
    · unfold make_hanging_node_constraints_2d
      rw [foldlM_ok _
        (fun cs l => if l ∈ markedLines M then
          cs ++ lineConstraintsSpec M l else cs)]
      · rw [foldl_append_filter]
      · intro s l _
        by_cases hmem : l ∈ markedLines M
        · simp only [if_pos hmem, if_pos hn, if_pos hm,
            dofs_on_mother_eq, dofs_on_children_eq, Except.ok.injEq]
          simp only [foldl_append_singleton, List.nil_append]
          rfl
        · simp [if_neg hmem]
    · intro l
      exact ⟨hn ▸ hml l, hm ▸ hcl l⟩
  · intro hmis
    have herr : ∀ (L : List Nat) (s : ConstraintList),
        (∃ l0 ∈ L, l0 ∈ markedLines M) →
        L.foldlM (fun cs l =>
          if l ∈ markedLines M then
            if 2 * M.fe.dofsPerVertex + M.fe.dofsPerLine =
                M.fe.constraintsCols then
              if M.fe.dofsPerVertex + 2 * M.fe.dofsPerLine =
                  M.fe.constraintsRows then
                let mother := dofs_on_mother M l
                let children := dofs_on_children M l
                Except.ok ((List.range children.length).foldl
                  (fun cs row =>
                    cs ++ [(children.getD row 0,
                      (List.range mother.length).foldl
                        (fun es i => es ++ [(mother.getD i 0,
                          M.fe.constraintsTable row i)]) [])])
                  cs)
              else Except.error "ExcDimensionMismatch"
            else Except.error "ExcDimensionMismatch"
          else Except.ok cs) s =
          Except.error "ExcDimensionMismatch" := by
      intro L
      induction L with
      | nil => intro s h; simp at h
      | cons a t ih =>
          intro s h
          by_cases hmem : a ∈ markedLines M
          · by_cases hn : 2 * M.fe.dofsPerVertex + M.fe.dofsPerLine =
                M.fe.constraintsCols
            · have hm : ¬(M.fe.dofsPerVertex + 2 * M.fe.dofsPerLine =
                  M.fe.constraintsRows) := fun hm => hmis ⟨hn, hm⟩
              simp only [List.foldlM, if_pos hmem, if_pos hn, if_neg hm]
              rfl
            · simp only [List.foldlM, if_pos hmem, if_neg hn]
              rfl
          · obtain ⟨l0, hl0, hl0m⟩ := h
            have hl0t : l0 ∈ t := by
              rcases List.mem_cons.mp hl0 with h | h
              · exact absurd (h ▸ hl0m) hmem
              · exact h
            simp only [List.foldlM, if_neg hmem]
            exact ih s ⟨l0, hl0t, hl0m⟩
    intro hex
    obtain ⟨l0, hl0, hl0m⟩ := hex
    exact herr (List.range M.nLines) cs
      ⟨l0, List.mem_range.mpr hl0, hl0m⟩

/-- A concrete one-line 2-d mesh with the bilinear element (one DoF per
vertex, none per line) whose single line is refined: the constraint table
is the half/half row. -/
def hnMesh : Mesh2D where
  fe := { dofsPerVertex := 1, dofsPerLine := 0, constraintsRows := 1,
          constraintsCols := 2, constraintsTable := fun _ _ => (1 : ℚ) / 2 }
  nLines := 1
  line := fun _ =>
    { vertexDofIndex := fun v _ => v
      dofIndex := fun _ => 99
      childVertexDofIndex := fun _ _ _ => 2
      childDofIndex := fun _ _ => 99 }
  nCells := 1
  facesPerCell := 1
  cellFace := fun _ _ => 0
  lineHasChildren := fun _ => true

/-- Witness for C2: on the refined bilinear line the deriver emits exactly
one constraint line for the mid-edge DoF with weights one half on the two
endpoint DoFs. -/
theorem make_hanging_node_constraints_2d_spec_witness :
    make_hanging_node_constraints_2d hnMesh [] =
      .ok [(2, [(0, (1 : ℚ) / 2), (1, (1 : ℚ) / 2)])] := by
  rw [((make_hanging_node_constraints_2d_spec hnMesh []).1
    (by decide) (by decide)).1]
  rfl

/-! ### Intergrid constraints (dof_tools.cc, compute_intergrid_constraints) -/

/-- The data compute_intergrid_constraints consumes: the coarse grid's
active cells with their global DoF indices and component map, the fine
grid's global DoF count, the precomputed weight_mapping from fine DoFs to
compacted parameter columns (-1 for non-parameter DoFs) together with the
column count n_parameters_on_fine_grid, and the external interpolation
oracle set_dof_values_by_interpolation giving the global parameter
representation of each local coarse basis vector. -/
structure IntergridModel where
  nCoarseCells : Nat
  coarseDofsPerCell : Nat
  coarseComponent : Nat
  coarseSystemToComponent : Nat → Nat
  parameterDofIndices : Nat → Nat → Nat
  nCoarseDofs : Nat
  nCoarseComponents : Nat
  nFineDofs : Nat
  nParameters : Nat
  weightMapping : Nat → Int
  representation : Nat → Nat → Nat → ℚ

/-- The weight-filling loop of compute_intergrid_constraints: for every
coarse cell and every local DoF of the selected component, copy the
nonzero entries of its global parameter representation into the weight
row of that coarse DoF, never overwriting with zero; a nonzero
representation entry at a non-parameter fine DoF is the asserted internal
error. -/
def fillWeights (M : IntergridModel) : Except String (Nat → Nat → ℚ) :=
  (List.range M.nCoarseCells).foldlM
    (fun w cell =>
      (List.range M.coarseDofsPerCell).foldlM
        (fun w local_parameter_dof =>
          if M.coarseSystemToComponent local_parameter_dof =
              M.coarseComponent then
            (List.range M.nFineDofs).foldlM
              (fun w i =>
                if M.weightMapping i ≠ -1 then
                  if M.representation cell local_parameter_dof i ≠ 0 then
                    Except.ok (fun r c =>
                      if r = M.parameterDofIndices cell local_parameter_dof ∧
                          M.weightMapping i = (c : Int) then
                        M.representation cell local_parameter_dof i
                      else w r c)
                  else Except.ok w
                else
                  if M.representation cell local_parameter_dof i = 0 then
                    Except.ok w
                  else Except.error "ExcInternalError")
              w
          else Except.ok w)
        w)
    (fun _ _ => 0)

/-- One write event of the weight-filling scan: the weight row (the coarse
DoF), the raw weight_mapping value of the fine DoF, and the computed
representation value. -/
def mkEvent (M : IntergridModel) (cell ld i : Nat) : Nat × Int × ℚ :=
  (M.parameterDofIndices cell ld, M.weightMapping i,
    M.representation cell ld i)

/-- Applying one write event: nonzero values overwrite the addressed
entry, zero values change nothing. -/
def applyEvent (w : Nat → Nat → ℚ) (e : Nat × Int × ℚ) : Nat → Nat → ℚ :=
  if e.2.2 ≠ 0 then
    fun r c => if r = e.1 ∧ e.2.1 = (c : Int) then e.2.2 else w r c
  else w

/-- All write events of the weight-filling scan, in scan order. -/
def weightEvents (M : IntergridModel) : List (Nat × Int × ℚ) :=
  ((List.range M.nCoarseCells).map (fun cell =>
    (((List.range M.coarseDofsPerCell).filter (fun ld =>
        decide (M.coarseSystemToComponent ld = M.coarseComponent))).map
      (fun ld => (List.range M.nFineDofs).map
        (fun i => mkEvent M cell ld i))).flatten)).flatten

/-- The values the scan computes for weight position (r, c), in scan
order. -/
def valuesFor (M : IntergridModel) (r c : Nat) : List ℚ :=
  ((weightEvents M).filter
    (fun e => decide (e.1 = r ∧ e.2.1 = (c : Int)))).map
    (fun e => e.2.2)

/-- The last nonzero element of a value sequence, or zero when there is
none. -/
def lastNonzeroOr0 (L : List ℚ) : ℚ :=
  (L.filter (fun v => decide (v ≠ 0))).getLastD 0

/-- Unguarded per-element block loops fold the flattened blocks. -/
theorem foldl_blocks {σ α β : Type} (step : σ → β → σ) (g : α → List β)
    (L : List α) :
    ∀ s : σ, L.foldl (fun s a => (g a).foldl step s) s =
      ((L.map g).flatten).foldl step s := by
  induction L with
  | nil => intro s; rfl
  | cons a t ih =>
      intro s
      simp [List.foldl_append, ih]

/-- Guarded per-element block loops fold the flattened filtered blocks. -/
theorem foldl_filter_blocks {σ α β : Type} (step : σ → β → σ)
    (p : α → Prop) [DecidablePred p] (g : α → List β) (L : List α) :
    ∀ s : σ,
      L.foldl (fun s a => if p a then (g a).foldl step s else s) s =
      (((L.filter (fun a => decide (p a))).map g).flatten).foldl step s := by
  induction L with
  | nil => intro s; rfl
  | cons a t ih =>
      intro s
      by_cases hp : p a
      · simp [hp, List.foldl_append, ih]
      · simp [hp, ih]

/-- Reading the fold of write events at a point yields the last matching
nonzero value, or the initial value. -/
theorem foldl_applyEvent_at (r c : Nat) :
    ∀ (es : List (Nat × Int × ℚ)) (w : Nat → Nat → ℚ),
      (es.foldl applyEvent w) r c =
        ((es.filter (fun e =>
          decide (e.2.2 ≠ 0 ∧ e.1 = r ∧ e.2.1 = (c : Int)))).map
            (fun e => e.2.2)).getLastD (w r c) := by
  intro es
  induction es with
  | nil => intro w; rfl
  | cons e t ih =>
      intro w
      rw [List.foldl_cons, ih]
      by_cases hm : e.2.2 ≠ 0 ∧ e.1 = r ∧ e.2.1 = (c : Int)
      · have happ : applyEvent w e r c = e.2.2 := by
          simp [applyEvent, hm.1, hm.2.1, hm.2.2]
        rw [happ]
        simp only [List.filter_cons]
        rw [if_pos (by simpa using hm), List.map_cons, List.getLastD_cons]
      · have happ : applyEvent w e r c = w r c := by
          unfold applyEvent
          by_cases hz : e.2.2 ≠ 0
          · have hrc : ¬(r = e.1 ∧ e.2.1 = (c : Int)) := by
              intro hx
              exact hm ⟨hz, hx.1.symm, hx.2⟩
            simp [hz, hrc]
          · simp [hz]
        rw [happ]
        simp only [List.filter_cons]
        rw [if_neg (by simpa using hm)]

/-- Filtering the nonzero values of the matching events is filtering the
events on the combined condition. -/
theorem filter_nonzero_map_comm (r c : Nat) :
    ∀ es : List (Nat × Int × ℚ),
      List.filter (fun v => decide (v ≠ 0))
        (List.map (fun e => e.2.2)
          (es.filter (fun e => decide (e.1 = r ∧ e.2.1 = (c : Int))))) =
      List.map (fun e => e.2.2)
        (es.filter (fun e =>
          decide (e.2.2 ≠ 0 ∧ e.1 = r ∧ e.2.1 = (c : Int)))) := by
  intro es
  induction es with
  | nil => rfl
  | cons e t ih =>
      by_cases hm : e.1 = r ∧ e.2.1 = (c : Int)
      · by_cases hz : e.2.2 ≠ 0
        · simp only [List.filter_cons]
          rw [if_pos (by simpa using hm), List.map_cons,
            List.filter_cons, if_pos (by simpa using hz),
            if_pos (by simp [hm, hz])]
          rw [List.map_cons, ih]
        · simp only [List.filter_cons]
          rw [if_pos (by simpa using hm), List.map_cons,
            List.filter_cons, if_neg (by simpa using hz),
            if_neg (by simp [hz])]
          exact ih
      · have hn2 : ¬(e.2.2 ≠ 0 ∧ e.1 = r ∧ e.2.1 = (c : Int)) :=
          fun h => hm ⟨h.2.1, h.2.2⟩
        simp only [List.filter_cons]
        rw [if_neg (by simpa using hm), if_neg (by simpa using hn2)]
        exact ih

/-- C3: the weight-filling loop of compute_intergrid_constraints
overwrites entries only with nonzero values, so the final weight at every
(row, column) position equals the last nonzero value computed for it over
all coarse cells, or zero when every computed value was zero. -/
theorem intergrid_weights_last_nonzero (M : IntergridModel)
    (hzero : ∀ cell ld i, cell < M.nCoarseCells →
      ld < M.coarseDofsPerCell → i < M.nFineDofs →
      M.coarseSystemToComponent ld = M.coarseComponent →
      M.weightMapping i = -1 → M.representation cell ld i = 0) :
    ∃ w, fillWeights M = .ok w ∧
      ∀ r c, w r c = lastNonzeroOr0 (valuesFor M r c) := by
  refine ⟨(weightEvents M).foldl applyEvent (fun _ _ => 0), ?_, ?_⟩
  · unfold fillWeights
    rw [foldlM_ok _
      (fun w cell =>
        (((List.range M.coarseDofsPerCell).filter (fun ld =>
            decide (M.coarseSystemToComponent ld = M.coarseComponent))).map
          (fun ld => (List.range M.nFineDofs).map
            (fun i => mkEvent M cell ld i))).flatten.foldl applyEvent w)]
    · rw [foldl_blocks applyEvent
        (fun cell =>
          (((List.range M.coarseDofsPerCell).filter (fun ld =>
              decide (M.coarseSystemToComponent ld =
                M.coarseComponent))).map
            (fun ld => (List.range M.nFineDofs).map
              (fun i => mkEvent M cell ld i))).flatten)]
      rfl
    · intro w cell hcell
      rw [foldlM_ok _
        (fun w ld =>
          if M.coarseSystemToComponent ld = M.coarseComponent then
            ((List.range M.nFineDofs).map
              (fun i => mkEvent M cell ld i)).foldl applyEvent w
          else w)]
      · rw [foldl_filter_blocks applyEvent
          (fun ld => M.coarseSystemToComponent ld = M.coarseComponent)
          (fun ld => (List.range M.nFineDofs).map
            (fun i => mkEvent M cell ld i))]
      · intro w ld hld
        by_cases hcomp : M.coarseSystemToComponent ld = M.coarseComponent
        · rw [if_pos hcomp, if_pos hcomp]
          rw [foldlM_ok _ (fun w i => applyEvent w (mkEvent M cell ld i))]
          · rw [List.foldl_map]
          · intro w i hi
            by_cases hmap : M.weightMapping i ≠ -1
            · rw [if_pos hmap]
              by_cases hrep : M.representation cell ld i ≠ 0
              · rw [if_pos hrep]
                unfold applyEvent mkEvent
                rw [if_pos hrep]
              · rw [if_neg hrep]
                unfold applyEvent mkEvent
                rw [if_neg hrep]
            · rw [if_neg hmap]
              push_neg at hmap
              have hrep : M.representation cell ld i = 0 :=
                hzero cell ld i (List.mem_range.mp hcell)
                  (List.mem_range.mp hld) (List.mem_range.mp hi)
                  hcomp hmap
              rw [if_pos hrep]
              unfold applyEvent mkEvent
              rw [if_neg (by simp [hrep])]
        · rw [if_neg hcomp, if_neg hcomp]
  · intro r c
    rw [foldl_applyEvent_at]
    unfold lastNonzeroOr0 valuesFor
    rw [filter_nonzero_map_comm]

/-- The C++ first-hit scan loop: starting index, then fuel many steps;
returns the first index satisfying the predicate, or start + fuel when
none does. -/
def firstIdxFrom (p : Nat → Bool) : Nat → Nat → Nat
  | start, 0 => start
  | start, fuel + 1 => if p start then start else firstIdxFrom p (start + 1) fuel

/-- The first index below n satisfying the predicate, or n when none. -/
def firstIdx (n : Nat) (p : Nat → Bool) : Nat := firstIdxFrom p 0 n

/-- The compacted column of a parameter fine DoF
(weight_mapping[global_dof]). -/
def columnOf (M : IntergridModel) (global_dof : Nat) : Nat :=
  (M.weightMapping global_dof).toNat

/-- The first row with a nonzero weight in the column of a fine DoF. -/
def firstUsedRow (M : IntergridModel) (w : Nat → Nat → ℚ)
    (global_dof : Nat) : Nat :=
  firstIdx M.nCoarseDofs (fun row => decide (w row (columnOf M global_dof) ≠ 0))

/-- The representative-selection loop of compute_intergrid_constraints:
for every weight row, scan for the first column with weight exactly one
(asserted to exist), then recover its fine global DoF as the first one
whose weight_mapping value equals that column (asserted to exist). -/
def representantsOf (M : IntergridModel) (w : Nat → Nat → ℚ) :
    Except String (List Int) :=
  (List.range M.nCoarseDofs).foldlM
    (fun reps parameter_dof =>
      if firstIdx M.nParameters (fun c => decide (w parameter_dof c = 1)) <
          M.nParameters then
        if firstIdx M.nFineDofs (fun g => decide (M.weightMapping g =
            ((firstIdx M.nParameters
              (fun c => decide (w parameter_dof c = 1))) : Int))) <
            M.nFineDofs then
          Except.ok (reps ++ [((firstIdx M.nFineDofs
            (fun g => decide (M.weightMapping g =
              ((firstIdx M.nParameters
                (fun c => decide (w parameter_dof c = 1))) : Int)))) : Int)])
        else Except.error "ExcInternalError"
      else Except.error "ExcInternalError")
    []

/-- The constraint-emission loop of compute_intergrid_constraints: every
parameter fine DoF is skipped when the weight at its column's first
nonzero row is one and that row's representative is the DoF itself;
otherwise one line is added whose entries run over the remaining rows
with nonzero weight. -/
def intergrid_constraint_lines (M : IntergridModel) (w : Nat → Nat → ℚ)
    (representants : List Int) (constraints : ConstraintList) :
    ConstraintList :=
  (List.range M.nFineDofs).foldl
    (fun cs global_dof =>
      if M.weightMapping global_dof ≠ -1 then
        if w (firstUsedRow M w global_dof) (columnOf M global_dof) = 1 ∧
            representants.getD (firstUsedRow M w global_dof) (-1) =
              (global_dof : Int) then
          cs
        else
          cs ++ [(global_dof,
            (List.range' (firstUsedRow M w global_dof)
              (M.nCoarseDofs - firstUsedRow M w global_dof)).foldl
              (fun es row =>
                if w row (columnOf M global_dof) ≠ 0 then
                  es ++ [((representants.getD row (-1)).toNat,
                    w row (columnOf M global_dof))]
                else es) [])]
      else cs)
    constraints

/-- DoFTools::compute_intergrid_constraints: fill the weight matrix, run
the debug partition-of-unity column check, select representatives, then
emit the constraint lines. -/
def compute_intergrid_constraints (M : IntergridModel)
    (constraints : ConstraintList) : Except String ConstraintList :=
  match fillWeights M with
  | .error e => .error e
  | .ok w =>
      if (List.range M.nParameters).all (fun col =>
          decide ((List.range M.nCoarseDofs).foldl
            (fun acc row => acc + w row col) 0 = 1) ||
          (decide (1 < M.nCoarseComponents) &&
            decide ((List.range M.nCoarseDofs).foldl
              (fun acc row => acc + w row col) 0 = 0))) then
        match representantsOf M w with
        | .error e => .error e
        | .ok reps => .ok (intergrid_constraint_lines M w reps constraints)
      else .error "ExcInternalError"

/-- The representative list as the specification words it: per weight row,
the fine DoF whose weight_mapping value is the first column of that row
with weight exactly one. -/
def repsSpec (M : IntergridModel) (w : Nat → Nat → ℚ) : List Int :=
  (List.range M.nCoarseDofs).map (fun pd =>
    ((firstIdx M.nFineDofs (fun g => decide (M.weightMapping g =
      ((firstIdx M.nParameters (fun c => decide (w pd c = 1))) : Int)))) :
      Int))

/-- The skip condition the code implements: the weight at the column's
FIRST nonzero row is one and that row's representative is this DoF. -/
def codeUnconstrained (M : IntergridModel) (w : Nat → Nat → ℚ)
    (representants : List Int) (global_dof : Nat) : Prop :=
  w (firstUsedRow M w global_dof) (columnOf M global_dof) = 1 ∧
  representants.getD (firstUsedRow M w global_dof) (-1) = (global_dof : Int)

/-- The constraint line emitted for a constrained fine DoF: one entry per
row with nonzero weight in its column, pairing that row's representative
with the weight. -/
def lineFor (M : IntergridModel) (w : Nat → Nat → ℚ)
    (representants : List Int) (global_dof : Nat) : Nat × List (Nat × ℚ) :=
  (global_dof,
    ((List.range' (firstUsedRow M w global_dof)
        (M.nCoarseDofs - firstUsedRow M w global_dof)).filter
      (fun row => decide (w row (columnOf M global_dof) ≠ 0))).map
      (fun row => ((representants.getD row (-1)).toNat,
        w row (columnOf M global_dof))))

/-- Flattening singleton blocks is mapping. -/
theorem flatten_map_singleton {α β : Type} (L : List α) (f : α → β) :
    (L.map (fun x => [f x])).flatten = L.map f := by
  induction L with
  | nil => rfl
  | cons x t ih => simp [ih]

instance (M : IntergridModel) (w : Nat → Nat → ℚ) (reps : List Int)
    (g : Nat) : Decidable (codeUnconstrained M w reps g) := by
  unfold codeUnconstrained
  infer_instance

/-- C4 amended: each weight row's representative is the fine DoF whose
weight_mapping value is the FIRST column of the row with weight exactly
one; a parameter fine DoF is left unconstrained exactly when the weight at
the FIRST nonzero row of its column is one and that row's representative
is the DoF itself (the remaining rows are not inspected); every other
parameter fine DoF receives one line whose entries pair the
representatives of the rows with nonzero weight in its column with those
weights. -/
theorem intergrid_representatives_and_lines (M : IntergridModel)
    (w : Nat → Nat → ℚ) (cs : ConstraintList)
    (hone : ∀ pd < M.nCoarseDofs,
      firstIdx M.nParameters (fun c => decide (w pd c = 1)) < M.nParameters)
    (hglob : ∀ pd < M.nCoarseDofs,
      firstIdx M.nFineDofs (fun g => decide (M.weightMapping g =
        ((firstIdx M.nParameters (fun c => decide (w pd c = 1))) : Int))) <
        M.nFineDofs) :
    representantsOf M w = .ok (repsSpec M w) ∧
    ∀ reps : List Int,
      intergrid_constraint_lines M w reps cs =
        cs ++ ((List.range M.nFineDofs).filter (fun g =>
          decide (M.weightMapping g ≠ -1 ∧
            ¬codeUnconstrained M w reps g))).map (lineFor M w reps) := by
  constructor
  · unfold representantsOf
    rw [foldlM_ok _
      (fun reps pd => reps ++ [((firstIdx M.nFineDofs
        (fun g => decide (M.weightMapping g =
          ((firstIdx M.nParameters
            (fun c => decide (w pd c = 1))) : Int)))) : Int)])]
    · rw [foldl_append_singleton]
      rfl
    · intro reps pd hpd
      rw [if_pos (hone pd (List.mem_range.mp hpd)),
        if_pos (hglob pd (List.mem_range.mp hpd))]
  · intro reps
    unfold intergrid_constraint_lines
    rw [List.foldl_ext _
      (fun cs g =>
        if M.weightMapping g ≠ -1 ∧ ¬codeUnconstrained M w reps g then
          cs ++ [lineFor M w reps g]
        else cs)
      cs ?_]
    · rw [foldl_append_filter
        (List.range M.nFineDofs)
        (fun g => M.weightMapping g ≠ -1 ∧ ¬codeUnconstrained M w reps g)
        (fun g => [lineFor M w reps g])]
      rw [flatten_map_singleton]
    · intro acc g hg
      dsimp only
      by_cases hmap : M.weightMapping g ≠ -1
      · by_cases hskip : codeUnconstrained M w reps g
        · rw [if_pos hmap, if_pos ⟨hskip.1, hskip.2⟩,
            if_neg (fun h => h.2 hskip)]
        · rw [if_pos hmap, if_neg (fun h => hskip ⟨h.1, h.2⟩),
            if_pos ⟨hmap, hskip⟩]
          rw [foldl_append_filter
            (List.range' (firstUsedRow M w g)
              (M.nCoarseDofs - firstUsedRow M w g))
            (fun row => w row (columnOf M g) ≠ 0)
            (fun row => [((reps.getD row (-1)).toNat,
              w row (columnOf M g))])]
          rw [flatten_map_singleton, List.nil_append]
          rfl
      · rw [if_neg hmap, if_neg (fun h => hmap h.1)]

/-- A concrete one-coarse-cell model with three coarse DoFs and three fine
parameter DoFs: the representation of coarse basis function 0 is the unit
vector on fine DoF 0, while basis functions 1 and 2 also carry weights
one half and minus one half on fine DoF 0, so every column still sums to
one. -/
def cexIntergrid : IntergridModel where
  nCoarseCells := 1
  coarseDofsPerCell := 3
  coarseComponent := 0
  coarseSystemToComponent := fun _ => 0
  parameterDofIndices := fun _ ld => ld
  nCoarseDofs := 3
  nCoarseComponents := 1
  nFineDofs := 3
  nParameters := 3
  weightMapping := fun i => (i : Int)
  representation := fun _ ld i =>
    if ld = 0 then (if i = 0 then 1 else 0)
    else if ld = 1 then (if i = 0 then 1 / 2 else if i = 1 then 1 else 0)
    else (if i = 0 then -(1 / 2) else if i = 2 then 1 else 0)

/-- The weight matrix the fill loop produces on cexIntergrid. -/
def cexW : Nat → Nat → ℚ := fun r c =>
  if r = 0 then (if c = 0 then 1 else 0)
  else if r = 1 then (if c = 0 then 1 / 2 else if c = 1 then 1 else 0)
  else if r = 2 then (if c = 0 then -(1 / 2) else if c = 2 then 1 else 0)
  else 0

/-- The weight stored at a position after the fill loop (zero when the
fill loop failed). -/
def weightAt (M : IntergridModel) (r c : Nat) : ℚ :=
  match fillWeights M with
  | .ok w => w r c
  | .error _ => 0

/-- C4 counterexample: on cexIntergrid the column of parameter fine DoF 0
carries the nonzero weights one half and minus one half besides the 1.0
in row 0, so by the claim the DoF would have to receive a constraint
line; the code nevertheless emits no constraint at all, because it only
inspects the column's first nonzero row. -/
theorem intergrid_only_nonzero_rule_refuted :
    compute_intergrid_constraints cexIntergrid [] = .ok [] ∧
    cexIntergrid.weightMapping 0 = 0 ∧
    weightAt cexIntergrid 0 0 = 1 ∧
    weightAt cexIntergrid 1 0 = 1 / 2 ∧
    weightAt cexIntergrid 2 0 = -(1 / 2) := by
  refine ⟨?_, rfl, ?_, ?_, ?_⟩
  · with_unfolding_all rfl
  · with_unfolding_all decide
  · with_unfolding_all decide
  · with_unfolding_all decide

/-- Witness for C3 on cexIntergrid: no fine DoF maps to column -1, so the
no-spurious-representation hypothesis holds vacuously, and every stored
weight is the last nonzero computed value. -/
theorem intergrid_weights_last_nonzero_witness :
    (∀ cell ld i, cell < cexIntergrid.nCoarseCells →
      ld < cexIntergrid.coarseDofsPerCell → i < cexIntergrid.nFineDofs →
      cexIntergrid.coarseSystemToComponent ld =
        cexIntergrid.coarseComponent →
      cexIntergrid.weightMapping i = -1 →
      cexIntergrid.representation cell ld i = 0) ∧
    (∃ w, fillWeights cexIntergrid = .ok w ∧
      ∀ r c, w r c = lastNonzeroOr0 (valuesFor cexIntergrid r c)) := by
  have hz : ∀ cell ld i, cell < cexIntergrid.nCoarseCells →
      ld < cexIntergrid.coarseDofsPerCell → i < cexIntergrid.nFineDofs →
      cexIntergrid.coarseSystemToComponent ld =
        cexIntergrid.coarseComponent →
      cexIntergrid.weightMapping i = -1 →
      cexIntergrid.representation cell ld i = 0 := by
    intro cell ld i _ _ _ _ hmap
    have h2 : (i : Int) = -1 := hmap
    omega
  exact ⟨hz, intergrid_weights_last_nonzero cexIntergrid hz⟩

/-- Witness for C4's amended theorem on cexIntergrid with its computed
weight matrix. -/
theorem intergrid_representatives_and_lines_witness :
    ((∀ pd < cexIntergrid.nCoarseDofs,
        firstIdx cexIntergrid.nParameters
          (fun c => decide (cexW pd c = 1)) < cexIntergrid.nParameters) ∧
      (∀ pd < cexIntergrid.nCoarseDofs,
        firstIdx cexIntergrid.nFineDofs
          (fun g => decide (cexIntergrid.weightMapping g =
            ((firstIdx cexIntergrid.nParameters
              (fun c => decide (cexW pd c = 1))) : Int))) <
          cexIntergrid.nFineDofs)) ∧
    (representantsOf cexIntergrid cexW =
        .ok (repsSpec cexIntergrid cexW) ∧
      ∀ reps : List Int,
        intergrid_constraint_lines cexIntergrid cexW reps [] =
          [] ++ ((List.range cexIntergrid.nFineDofs).filter (fun g =>
            decide (cexIntergrid.weightMapping g ≠ -1 ∧
              ¬codeUnconstrained cexIntergrid cexW reps g))).map
            (lineFor cexIntergrid cexW reps)) :=
  ⟨⟨by with_unfolding_all decide, by with_unfolding_all decide⟩,
    intergrid_representatives_and_lines cexIntergrid cexW []
      (by with_unfolding_all decide) (by with_unfolding_all decide)⟩

/-! ### MatrixFree cell_loop / loop worker (matrix_free.h, MFWorker) -/

/-- Observable effects of one matrix-free loop on the two vectors. -/
inductive MFEvent where
  | srcGhostStart
  | srcGhostFinish
  | srcGhostZeroed
  | dstCompressStart
  | dstCompressFinish
  | dstZeroed (range : Nat)
  | cellWork (range : Nat)
  deriving DecidableEq

/-- The state internal::MFWorker carries: the aliasing flag computed by
PointerComparison::equal(&src, &dst), the effective zero_dst_vector
setting (requested setting AND NOT aliased), whether the source vector
had ghost elements on entry, the exchanger's ghosts_were_set flag, and
the trace of effects so far. -/
structure MFWorker where
  srcAndDstAreSame : Bool
  zeroDstVectorSetting : Bool
  srcHasGhosts : Bool
  ghostsWereSet : Bool
  events : List MFEvent

/-- The MFWorker constructor: binds the aliasing flag and weakens the
zero_dst_vector request by it. -/
def MFWorker.init (sameVec zeroSetting srcHasGhosts : Bool) : MFWorker where
  srcAndDstAreSame := sameVec
  zeroDstVectorSetting := zeroSetting && !sameVec
  srcHasGhosts := srcHasGhosts
  ghostsWereSet := false
  events := []

/-- MFWorker::vector_update_ghosts_start: no ghost update is started when
source and destination are the same vector; otherwise the exchanger
records whether ghosts were already set (vec.has_ghost_elements()). -/
def vector_update_ghosts_start (w : MFWorker) : MFWorker :=
  if !w.srcAndDstAreSame then
    { w with ghostsWereSet := w.ghostsWereSet || w.srcHasGhosts,
             events := w.events ++ [.srcGhostStart] }
  else w

/-- MFWorker::vector_update_ghosts_finish: skipped for aliased vectors. -/
def vector_update_ghosts_finish (w : MFWorker) : MFWorker :=
  if !w.srcAndDstAreSame then
    { w with events := w.events ++ [.srcGhostFinish] }
  else w

/-- MFWorker::vector_compress_start: always compresses the destination. -/
def vector_compress_start (w : MFWorker) : MFWorker :=
  { w with events := w.events ++ [.dstCompressStart] }

/-- VectorDataExchange::reset_ghost_values: a no-op when the source had
its ghosts set on entry, otherwise the ghost entries are zeroed out. -/
def reset_ghost_values (w : MFWorker) : MFWorker :=
  if w.ghostsWereSet then w
  else { w with events := w.events ++ [.srcGhostZeroed] }

/-- MFWorker::vector_compress_finish: compress the destination, then
reset the source's ghost values unless the vectors are aliased. -/
def vector_compress_finish (w : MFWorker) : MFWorker :=
  let w2 : MFWorker := { w with events := w.events ++ [.dstCompressFinish] }
  if !w.srcAndDstAreSame then reset_ghost_values w2 else w2

/-- MFWorker::zero_dst_vector_range: zero a destination range only when
the effective setting is on. -/
def zero_dst_vector_range (w : MFWorker) (range : Nat) : MFWorker :=
  if w.zeroDstVectorSetting then
    { w with events := w.events ++ [.dstZeroed range] }
  else w

/-- MFWorker::cell: run the user cell operation on a batch range. -/
def cellRange (w : MFWorker) (range : Nat) : MFWorker :=
  { w with events := w.events ++ [.cellWork range] }

/-- Modelled from the spec: the loop driver (task_info.loop, whose source
is outside the shown files) starts and finishes the source ghost update
before the cell work, zeroes each destination batch range before using
it, and runs the compress start/finish pair at the end of the loop. -/
def runLoop (sameVec zeroSetting srcHasGhosts : Bool)
    (ranges : List Nat) : MFWorker :=
  vector_compress_finish (vector_compress_start
    (ranges.foldl (fun w r => cellRange (zero_dst_vector_range w r) r)
      (vector_update_ghosts_finish (vector_update_ghosts_start
        (MFWorker.init sameVec zeroSetting srcHasGhosts)))))

/-- The cell phase appends per-range zero/work blocks and leaves every
other worker field unchanged. -/
theorem loopFold_events (ranges : List Nat) :
    ∀ w : MFWorker,
      (ranges.foldl (fun w r => cellRange (zero_dst_vector_range w r) r)
        w).events =
        w.events ++ (ranges.map (fun r =>
          if w.zeroDstVectorSetting then
            [MFEvent.dstZeroed r, MFEvent.cellWork r]
          else [MFEvent.cellWork r])).flatten ∧
      (ranges.foldl (fun w r => cellRange (zero_dst_vector_range w r) r)
        w).srcAndDstAreSame = w.srcAndDstAreSame ∧
      (ranges.foldl (fun w r => cellRange (zero_dst_vector_range w r) r)
        w).zeroDstVectorSetting = w.zeroDstVectorSetting ∧
      (ranges.foldl (fun w r => cellRange (zero_dst_vector_range w r) r)
        w).ghostsWereSet = w.ghostsWereSet := by
  induction ranges with
  | nil => intro w; simp
  | cons r t ih =>
      intro w
      by_cases hset : w.zeroDstVectorSetting
      · have hbody : cellRange (zero_dst_vector_range w r) r =
            { w with events :=
                w.events ++ [MFEvent.dstZeroed r, MFEvent.cellWork r] } := by
          simp [cellRange, zero_dst_vector_range, hset]
        rw [List.foldl_cons, hbody]
        obtain ⟨he, hs, hz, hg⟩ := ih
          { w with events :=
              w.events ++ [MFEvent.dstZeroed r, MFEvent.cellWork r] }
        refine ⟨?_, hs, hz, hg⟩
        rw [he]
        simp [hset]
      · have hbody : cellRange (zero_dst_vector_range w r) r =
            { w with events := w.events ++ [MFEvent.cellWork r] } := by
          simp [cellRange, zero_dst_vector_range, hset]
        rw [List.foldl_cons, hbody]
        obtain ⟨he, hs, hz, hg⟩ := ih
          { w with events := w.events ++ [MFEvent.cellWork r] }
        refine ⟨?_, hs, hz, hg⟩
        rw [he]
        simp [hset]

/-- C9: when source and destination are the same vector object, the loop
neither zeroes the destination (even with zero_dst_vector requested) nor
starts, finishes or resets any ghost update on the source; when they are
distinct, destination ranges are zeroed exactly when requested, the ghost
update is started and finished, and the source's ghost entries are zeroed
after the loop exactly when the source had no ghost elements on entry. -/
theorem mfworker_aliasing_frame (sameVec zeroSetting srcHasGhosts : Bool)
    (ranges : List Nat) :
    (sameVec = true →
      ∀ e ∈ (runLoop sameVec zeroSetting srcHasGhosts ranges).events,
        e = MFEvent.dstCompressStart ∨ e = MFEvent.dstCompressFinish ∨
        ∃ r, e = MFEvent.cellWork r) ∧
    (sameVec = false →
      (∀ r, MFEvent.dstZeroed r ∈
          (runLoop sameVec zeroSetting srcHasGhosts ranges).events ↔
        (zeroSetting = true ∧ r ∈ ranges)) ∧
      (MFEvent.srcGhostZeroed ∈
          (runLoop sameVec zeroSetting srcHasGhosts ranges).events ↔
        srcHasGhosts = false) ∧
      MFEvent.srcGhostStart ∈
        (runLoop sameVec zeroSetting srcHasGhosts ranges).events ∧
      MFEvent.srcGhostFinish ∈
        (runLoop sameVec zeroSetting srcHasGhosts ranges).events) := by
  constructor
  · intro hsame
    subst hsame
    have hinit : vector_update_ghosts_finish (vector_update_ghosts_start
        (MFWorker.init true zeroSetting srcHasGhosts)) =
        MFWorker.init true zeroSetting srcHasGhosts := by
      simp [vector_update_ghosts_finish, vector_update_ghosts_start,
        MFWorker.init]
    obtain ⟨hev, hs, hz, hg⟩ := loopFold_events ranges
      (MFWorker.init true zeroSetting srcHasGhosts)
    have hs' : (ranges.foldl
        (fun w r => cellRange (zero_dst_vector_range w r) r)
        (MFWorker.init true zeroSetting srcHasGhosts)).srcAndDstAreSame =
        true := by
      rw [hs]
      rfl
    have hev' : (ranges.foldl
        (fun w r => cellRange (zero_dst_vector_range w r) r)
        (MFWorker.init true zeroSetting srcHasGhosts)).events =
        ranges.map (fun r => MFEvent.cellWork r) := by
      rw [hev]
      simp [MFWorker.init, flatten_map_singleton]
    have hfin : (runLoop true zeroSetting srcHasGhosts ranges).events =
        (ranges.map (fun r => MFEvent.cellWork r)) ++
        [MFEvent.dstCompressStart, MFEvent.dstCompressFinish] := by
      unfold runLoop
      rw [hinit]
      simp [vector_compress_finish, vector_compress_start, hs', hev']
    intro e he
    rw [hfin] at he
    simp only [List.mem_append, List.mem_map, List.mem_cons,
      List.mem_singleton, List.not_mem_nil, or_false] at he
    rcases he with ⟨r, _, hr⟩ | he | he
    · exact Or.inr (Or.inr ⟨r, hr.symm⟩)
    · exact Or.inl he
    · exact Or.inr (Or.inl he)
  · intro hsame
    subst hsame
    have hinit : vector_update_ghosts_finish (vector_update_ghosts_start
        (MFWorker.init false zeroSetting srcHasGhosts)) =
        { srcAndDstAreSame := false, zeroDstVectorSetting := zeroSetting,
          srcHasGhosts := srcHasGhosts, ghostsWereSet := srcHasGhosts,
          events := [MFEvent.srcGhostStart, MFEvent.srcGhostFinish] } := by
      simp [vector_update_ghosts_finish, vector_update_ghosts_start,
        MFWorker.init]
    obtain ⟨hev, hs, hz, hg⟩ := loopFold_events ranges
      { srcAndDstAreSame := false, zeroDstVectorSetting := zeroSetting,
        srcHasGhosts := srcHasGhosts, ghostsWereSet := srcHasGhosts,
        events := [MFEvent.srcGhostStart, MFEvent.srcGhostFinish] }
    have hfin : (runLoop false zeroSetting srcHasGhosts ranges).events =
        [MFEvent.srcGhostStart, MFEvent.srcGhostFinish] ++
        (ranges.map (fun r =>
          if zeroSetting then
            [MFEvent.dstZeroed r, MFEvent.cellWork r]
          else [MFEvent.cellWork r])).flatten ++
        [MFEvent.dstCompressStart, MFEvent.dstCompressFinish] ++
        (if srcHasGhosts then [] else [MFEvent.srcGhostZeroed]) := by
      unfold runLoop
      rw [hinit]
      cases hsg : srcHasGhosts
      · rw [hsg] at hev hs hz hg
        simp [vector_compress_finish, vector_compress_start,
          reset_ghost_values, hs, hz, hg, hev]
      · rw [hsg] at hev hs hz hg
        simp [vector_compress_finish, vector_compress_start,
          reset_ghost_values, hs, hz, hg, hev]
    refine ⟨?_, ?_, ?_, ?_⟩
    · intro r
      rw [hfin]
      cases zeroSetting
      · simp
      · simp
    · rw [hfin]
      cases srcHasGhosts
      · cases zeroSetting <;> simp
      · cases zeroSetting <;> simp
    · rw [hfin]
      simp
    · rw [hfin]
      simp

/-- Witness for C9: with aliased vectors and zeroing requested the trace
holds only compress and cell events, and with distinct vectors whose
source had no ghosts the ghost entries are zeroed after the loop. -/
theorem mfworker_aliasing_frame_witness :
    (∀ e ∈ (runLoop true true false [0]).events,
      e = MFEvent.dstCompressStart ∨ e = MFEvent.dstCompressFinish ∨
      ∃ r, e = MFEvent.cellWork r) ∧
    (MFEvent.srcGhostZeroed ∈ (runLoop false true false [0]).events ↔
      false = false) :=
  ⟨(mfworker_aliasing_frame true true false [0]).1 rfl,
    ((mfworker_aliasing_frame false true false [0]).2 rfl).2.1⟩

/-! ### Flux sparsity pattern (dof_tools.cc, make_flux_sparsity_pattern) -/

/-- Mesh interface of make_flux_sparsity_pattern: active cells with DoF
lists, per-face boundary test, level-aware neighbor navigation
(neighbor, neighbor_of_neighbor), face object identities (for the user
flag), and refined-neighbor navigation (children, child_cell_on_face). -/
structure FluxMesh where
  nCells : Nat
  dofsPerCell : Nat
  facesPerCell : Nat
  subfacesPerFace : Nat
  cellDof : Nat → Nat → Nat
  level : Nat → Nat
  hasChildren : Nat → Bool
  atBoundary : Nat → Nat → Bool
  neighbor : Nat → Nat → Nat
  neighborOfNeighbor : Nat → Nat → Nat
  faceId : Nat → Nat → Nat
  child : Nat → Nat → Nat
  childCellOnFace : Nat → Nat → Nat

/-- The traversal state of make_flux_sparsity_pattern: the sparsity
entries, the set of face identities whose user flag is set (the spec asks
for exactly this transient explicit structure), and, as pure
instrumentation, the list of neighbor-pair insertion events, each
recording the visiting cell, the other cell and the flagged face. -/
structure FluxState where
  sp : SparsityPattern
  flags : Finset Nat
  events : List (Nat × Nat × Nat)

/-- The plain per-cell block of the flux builder: the full cross product
of the cell's own DoFs. -/
def addCellCross (M : FluxMesh) (c : Nat) (sp : SparsityPattern) :
    SparsityPattern :=
  (List.range M.dofsPerCell).foldl
    (fun sp i =>
      (List.range M.dofsPerCell).foldl
        (fun sp j => insert (M.cellDof c i, M.cellDof c j) sp) sp)
    sp

/-- The neighbor block of the flux builder: for every (i, j) the two adds
sparsity.add(this[i], other[j]) and sparsity.add(other[i], this[j]). -/
def addFluxCross (M : FluxMesh) (c other : Nat) (sp : SparsityPattern) :
    SparsityPattern :=
  (List.range M.dofsPerCell).foldl
    (fun sp i =>
      (List.range M.dofsPerCell).foldl
        (fun sp j =>
          insert (M.cellDof other i, M.cellDof c j)
            (insert (M.cellDof c i, M.cellDof other j) sp)) sp)
    sp

/-- One face of the flux traversal: skip when the face's user flag is
already set or the face is on the boundary; skip a strictly coarser
neighbor (the coarser side handles the face); against a refined neighbor
iterate its subface children, otherwise couple with the neighbor itself,
setting the processed face's user flag. -/
def processFace (M : FluxMesh) (c : Nat) (st : FluxState) (f : Nat) :
    FluxState :=
  if M.faceId c f ∈ st.flags then st
  else if M.atBoundary c f then st
  else
    if M.level (M.neighbor c f) < M.level c then st
    else
      if M.hasChildren (M.neighbor c f) then
        (List.range M.subfacesPerFace).foldl
          (fun st sub_nr =>
            { sp := addFluxCross M c
                (M.child (M.neighbor c f)
                  (M.childCellOnFace (M.neighborOfNeighbor c f) sub_nr))
                st.sp,
              flags := insert
                (M.faceId
                  (M.child (M.neighbor c f)
                    (M.childCellOnFace (M.neighborOfNeighbor c f) sub_nr))
                  (M.neighborOfNeighbor c f)) st.flags,
              events := st.events ++
                [(c, M.child (M.neighbor c f)
                    (M.childCellOnFace (M.neighborOfNeighbor c f) sub_nr),
                  M.faceId
                    (M.child (M.neighbor c f)
                      (M.childCellOnFace (M.neighborOfNeighbor c f) sub_nr))
                    (M.neighborOfNeighbor c f))] })
          st
      else
        { sp := addFluxCross M c (M.neighbor c f) st.sp,
          flags := insert
            (M.faceId (M.neighbor c f) (M.neighborOfNeighbor c f)) st.flags,
          events := st.events ++
            [(c, M.neighbor c f,
              M.faceId (M.neighbor c f) (M.neighborOfNeighbor c f))] }

/-- DoFTools::make_flux_sparsity_pattern: clear all user flags, then for
every active cell insert its own cross product and process its faces. -/
def make_flux_sparsity_pattern (M : FluxMesh) (sparsity : SparsityPattern) :
    FluxState :=
  ((List.range M.nCells).filter (fun c => !M.hasChildren c)).foldl
    (fun st c =>
      (List.range M.facesPerCell).foldl (processFace M c)
        { st with sp := addCellCross M c st.sp })
    { sp := sparsity, flags := ∅, events := [] }

/-- A uniform mesh with no hanging nodes: every cell is active, interior
faces join two distinct same-level cells consistently (symmetric neighbor
navigation sharing one face object), and a face identity determines its
at most two (cell, face-number) slots. -/
def UniformMesh (M : FluxMesh) : Prop :=
  (∀ c < M.nCells, M.hasChildren c = false) ∧
  (∀ c < M.nCells, ∀ f < M.facesPerCell, M.atBoundary c f = false →
    M.neighbor c f < M.nCells ∧
    M.neighbor c f ≠ c ∧
    M.level (M.neighbor c f) = M.level c ∧
    M.neighborOfNeighbor c f < M.facesPerCell ∧
    M.neighbor (M.neighbor c f) (M.neighborOfNeighbor c f) = c ∧
    M.neighborOfNeighbor (M.neighbor c f) (M.neighborOfNeighbor c f) = f ∧
    M.atBoundary (M.neighbor c f) (M.neighborOfNeighbor c f) = false ∧
    M.faceId (M.neighbor c f) (M.neighborOfNeighbor c f) = M.faceId c f) ∧
  (∀ c < M.nCells, ∀ f < M.facesPerCell, ∀ c' < M.nCells,
    ∀ f' < M.facesPerCell,
    M.faceId c f = M.faceId c' f' →
    (c' = c ∧ f' = f) ∨
    (M.atBoundary c f = false ∧ c' = M.neighbor c f ∧
      f' = M.neighborOfNeighbor c f))

instance (M : FluxMesh) : Decidable (UniformMesh M) := by
  unfold UniformMesh
  infer_instance

/-- The set of interior face identities of the mesh. -/
def interiorFaceIds (M : FluxMesh) : Finset Nat :=
  (((List.range M.nCells).map (fun c =>
    ((List.range M.facesPerCell).filter (fun f => !M.atBoundary c f)).map
      (M.faceId c))).flatten).toFinset

/-- Membership in the interior face identity set. -/
theorem mem_interiorFaceIds (M : FluxMesh) (x : Nat) :
    x ∈ interiorFaceIds M ↔ ∃ c < M.nCells, ∃ f < M.facesPerCell,
      M.atBoundary c f = false ∧ x = M.faceId c f := by
  unfold interiorFaceIds
  simp only [List.mem_toFinset, List.mem_flatten, List.mem_map,
    List.mem_filter, List.mem_range, Bool.not_eq_eq_eq_not, Bool.not_true]
  aesop

/-- Insert-only folds only grow the set. -/
theorem foldl_grows {α β : Type} [DecidableEq β]
    (g : Finset β → α → Finset β) (hg : ∀ s a, s ⊆ g s a) :
    ∀ (L : List α) (s : Finset β), s ⊆ L.foldl g s := by
  intro L
  induction L with
  | nil => intro s; exact Finset.Subset.refl s
  | cons a t ih =>
      intro s
      exact (hg s a).trans (ih (g s a))

/-- The per-cell block only grows the sparsity. -/
theorem subset_addCellCross (M : FluxMesh) (c : Nat)
    (sp : SparsityPattern) : sp ⊆ addCellCross M c sp := by
  unfold addCellCross
  exact foldl_grows _
    (fun s i => foldl_grows _
      (fun s j => Finset.subset_insert _ s) _ s) _ sp

/-- The neighbor block only grows the sparsity. -/
theorem subset_addFluxCross (M : FluxMesh) (c other : Nat)
    (sp : SparsityPattern) : sp ⊆ addFluxCross M c other sp := by
  unfold addFluxCross
  exact foldl_grows _
    (fun s i => foldl_grows _
      (fun s j => (Finset.subset_insert _ s).trans
        (Finset.subset_insert _ _)) _ s) _ sp

/-- Membership in the neighbor block: prior entries plus the cross-product
pairs in both directions. -/
theorem mem_addFluxCross (M : FluxMesh) (c other : Nat)
    (sp : SparsityPattern) (x : Nat × Nat) :
    x ∈ addFluxCross M c other sp ↔ x ∈ sp ∨
      ∃ i < M.dofsPerCell, ∃ j < M.dofsPerCell,
        x = (M.cellDof c i, M.cellDof other j) ∨
        x = (M.cellDof other i, M.cellDof c j) := by
  unfold addFluxCross
  rw [mem_foldl_of_step _
    (fun i x => ∃ j < M.dofsPerCell,
      x = (M.cellDof c i, M.cellDof other j) ∨
      x = (M.cellDof other i, M.cellDof c j))]
  · simp [List.mem_range]
  · intro s i x
    rw [mem_foldl_of_step _
      (fun j x =>
        x = (M.cellDof c i, M.cellDof other j) ∨
        x = (M.cellDof other i, M.cellDof c j))]
    · simp [List.mem_range]
    · intro s j x
      simp only [Finset.mem_insert]
      tauto

/-- The neighbor block contains both coupling directions for every local
DoF pair. -/
theorem addFluxCross_pairs (M : FluxMesh) (c other : Nat)
    (sp : SparsityPattern) (i j : Nat) (hi : i < M.dofsPerCell)
    (hj : j < M.dofsPerCell) :
    (M.cellDof c i, M.cellDof other j) ∈ addFluxCross M c other sp ∧
    (M.cellDof other i, M.cellDof c j) ∈ addFluxCross M c other sp := by
  constructor
  · exact (mem_addFluxCross M c other sp _).mpr
      (Or.inr ⟨i, hi, j, hj, Or.inl rfl⟩)
  · exact (mem_addFluxCross M c other sp _).mpr
      (Or.inr ⟨i, hi, j, hj, Or.inr rfl⟩)

/-- The traversal invariant: the set of flagged faces is exactly the set
of event faces, no face is the subject of two events, every event stems
from one interior face visited from one of its sides, and every event's
couplings are present in both directions over the full cross product. -/
def FluxInv (M : FluxMesh) (st : FluxState) : Prop :=
  st.flags = (st.events.map (fun e => e.2.2)).toFinset ∧
  (st.events.map (fun e => e.2.2)).Nodup ∧
  (∀ e ∈ st.events, e.1 < M.nCells ∧ ∃ f0 < M.facesPerCell,
    M.atBoundary e.1 f0 = false ∧ e.2.1 = M.neighbor e.1 f0 ∧
    e.2.2 = M.faceId e.1 f0) ∧
  (∀ e ∈ st.events, ∀ i < M.dofsPerCell, ∀ j < M.dofsPerCell,
    (M.cellDof e.1 i, M.cellDof e.2.1 j) ∈ st.sp ∧
    (M.cellDof e.2.1 i, M.cellDof e.1 j) ∈ st.sp)

/-- On a uniform mesh, one face step either skips (flag already set or
boundary face) or couples with the same-level neighbor and flags the
shared face. -/
theorem processFace_uniform (M : FluxMesh) (hU : UniformMesh M)
    (c : Nat) (hc : c < M.nCells) (f : Nat) (hf : f < M.facesPerCell)
    (st : FluxState) :
    processFace M c st f =
      if M.faceId c f ∈ st.flags then st
      else if M.atBoundary c f then st
      else
        { sp := addFluxCross M c (M.neighbor c f) st.sp,
          flags := insert (M.faceId c f) st.flags,
          events := st.events ++
            [(c, M.neighbor c f, M.faceId c f)] } := by
  obtain ⟨hchild, hnb, hinj⟩ := hU
  unfold processFace
  by_cases hflag : M.faceId c f ∈ st.flags
  · rw [if_pos hflag, if_pos hflag]
  · rw [if_neg hflag, if_neg hflag]
    by_cases hb : M.atBoundary c f
    · rw [if_pos hb, if_pos hb]
    · rw [if_neg hb, if_neg hb]
      obtain ⟨hlt, hne, hlev, hnof, hsymm, hnofsymm, hbint, hshare⟩ :=
        hnb c hc f hf (Bool.not_eq_true _ ▸ eq_false_of_ne_true hb)
      rw [if_neg (by rw [hlev]; exact lt_irrefl _)]
      rw [if_neg (by rw [hchild (M.neighbor c f) hlt]; exact
        Bool.false_ne_true)]
      rw [hshare]

/-- Folding the faces of one cell preserves the invariant, only grows the
flag set, and leaves every interior face of the cell flagged. -/
theorem faces_fold (M : FluxMesh) (hU : UniformMesh M) (c : Nat)
    (hc : c < M.nCells) :
    ∀ F : List Nat, (∀ f ∈ F, f < M.facesPerCell) →
    ∀ st : FluxState, FluxInv M st →
      FluxInv M (F.foldl (processFace M c) st) ∧
      st.flags ⊆ (F.foldl (processFace M c) st).flags ∧
      ∀ f ∈ F, M.atBoundary c f = false →
        M.faceId c f ∈ (F.foldl (processFace M c) st).flags := by
  intro F
  induction F with
  | nil =>
      intro _ st hInv
      exact ⟨hInv, Finset.Subset.refl _, by simp⟩
  | cons f F' ih =>
      intro hF st hInv
      have hf : f < M.facesPerCell := hF f (List.mem_cons_self _ _)
      have hF' : ∀ g ∈ F', g < M.facesPerCell :=
        fun g hg => hF g (List.mem_cons_of_mem _ hg)
      rw [List.foldl_cons, processFace_uniform M hU c hc f hf st]
      by_cases hflag : M.faceId c f ∈ st.flags
      · rw [if_pos hflag]
        obtain ⟨h1, h2, h3⟩ := ih hF' st hInv
        refine ⟨h1, h2, ?_⟩
        intro f' hf' hb'
        rcases List.mem_cons.mp hf' with hf' | hf'
        · exact h2 (hf' ▸ hflag)
        · exact h3 f' hf' hb'
      · rw [if_neg hflag]
        by_cases hb : M.atBoundary c f
        · rw [if_pos hb]
          obtain ⟨h1, h2, h3⟩ := ih hF' st hInv
          refine ⟨h1, h2, ?_⟩
          intro f' hf' hb'
          rcases List.mem_cons.mp hf' with hf' | hf'
          · rw [hf'] at hb'
            rw [hb'] at hb
            exact absurd hb Bool.false_ne_true
          · exact h3 f' hf' hb'
        · rw [if_neg hb]
          have hbf : M.atBoundary c f = false :=
            Bool.not_eq_true _ ▸ eq_false_of_ne_true hb
          have hInv1 : FluxInv M
              { sp := addFluxCross M c (M.neighbor c f) st.sp,
                flags := insert (M.faceId c f) st.flags,
                events := st.events ++
                  [(c, M.neighbor c f, M.faceId c f)] } := by
            obtain ⟨hfl, hnd, hprov, hcup⟩ := hInv
            refine ⟨?_, ?_, ?_, ?_⟩
            · rw [hfl]
              ext a
              simp [or_comm]
            · simp only [List.map_append, List.map_cons, List.map_nil]
              rw [List.nodup_append]
              refine ⟨hnd, List.nodup_singleton _, ?_⟩
              intro a ha hmem
              have : a = M.faceId c f := by simpa using hmem
              rw [this] at ha
              exact hflag (hfl ▸ List.mem_toFinset.mpr ha)
            · intro e he
              rcases List.mem_append.mp he with he | he
              · exact hprov e he
              · have : e = (c, M.neighbor c f, M.faceId c f) := by
                  simpa using he
                rw [this]
                exact ⟨hc, f, hf, hbf, rfl, rfl⟩
            · intro e he i hi j hj
              rcases List.mem_append.mp he with he | he
              · obtain ⟨hp1, hp2⟩ := hcup e he i hi j hj
                exact ⟨subset_addFluxCross M c (M.neighbor c f) st.sp hp1,
                  subset_addFluxCross M c (M.neighbor c f) st.sp hp2⟩
              · have : e = (c, M.neighbor c f, M.faceId c f) := by
                  simpa using he
                rw [this]
                exact addFluxCross_pairs M c (M.neighbor c f) st.sp i j hi hj
          obtain ⟨h1, h2, h3⟩ := ih hF' _ hInv1
          refine ⟨h1, ?_, ?_⟩
          · exact ((Finset.subset_insert _ _).trans h2)
          · intro f' hf' hb'
            rcases List.mem_cons.mp hf' with hf' | hf'
            · exact h2 (by rw [hf']; exact Finset.mem_insert_self _ _)
            · exact h3 f' hf' hb'

/-- Folding all cells preserves the invariant and flags every interior
face of every processed cell. -/
theorem cells_fold (M : FluxMesh) (hU : UniformMesh M) :
    ∀ L : List Nat, (∀ c ∈ L, c < M.nCells) →
    ∀ st : FluxState, FluxInv M st →
      FluxInv M (L.foldl (fun st c =>
        (List.range M.facesPerCell).foldl (processFace M c)
          { st with sp := addCellCross M c st.sp }) st) ∧
      st.flags ⊆ (L.foldl (fun st c =>
        (List.range M.facesPerCell).foldl (processFace M c)
          { st with sp := addCellCross M c st.sp }) st).flags ∧
      ∀ c ∈ L, ∀ f < M.facesPerCell, M.atBoundary c f = false →
        M.faceId c f ∈ (L.foldl (fun st c =>
          (List.range M.facesPerCell).foldl (processFace M c)
            { st with sp := addCellCross M c st.sp }) st).flags := by
  intro L
  induction L with
  | nil =>
      intro _ st hInv
      exact ⟨hInv, Finset.Subset.refl _, by simp⟩
  | cons c L' ih =>
      intro hL st hInv
      have hc : c < M.nCells := hL c (List.mem_cons_self _ _)
      have hL' : ∀ d ∈ L', d < M.nCells :=
        fun d hd => hL d (List.mem_cons_of_mem _ hd)
      have hInv0 : FluxInv M { st with sp := addCellCross M c st.sp } := by
        obtain ⟨hfl, hnd, hprov, hcup⟩ := hInv
        exact ⟨hfl, hnd, hprov, fun e he i hi j hj =>
          ⟨subset_addCellCross M c st.sp ((hcup e he i hi j hj).1),
            subset_addCellCross M c st.sp ((hcup e he i hi j hj).2)⟩⟩
      obtain ⟨h1, h2, h3⟩ := faces_fold M hU c hc
        (List.range M.facesPerCell)
        (fun f hf => List.mem_range.mp hf)
        { st with sp := addCellCross M c st.sp } hInv0
      rw [List.foldl_cons]
      obtain ⟨g1, g2, g3⟩ := ih hL' _ h1
      refine ⟨g1, h2.trans g2, ?_⟩
      intro c' hc' f hfb hbf
      rcases List.mem_cons.mp hc' with hc' | hc'
      · subst hc'
        exact g2 (h3 f (List.mem_range.mpr hfb) hbf)
      · exact g3 c' hc' f hfb hbf

/-- C1: on a uniform mesh with no hanging nodes, make_flux_sparsity_pattern
processes every interior face exactly once: no face appears in two
neighbor-pair insertion events, the flag set reached at the end is exactly
the set of interior faces, the number of events equals the number of
interior faces, each event inserts the couplings in both directions over
the full local-DoF cross product, and each interior face's unique event
couples its two adjacent cells (from whichever side visited it first). -/
theorem make_flux_sparsity_pattern_face_once (M : FluxMesh)
    (hU : UniformMesh M) (sparsity : SparsityPattern) :
    ((make_flux_sparsity_pattern M sparsity).events.map
      (fun e => e.2.2)).Nodup ∧
    (make_flux_sparsity_pattern M sparsity).flags = interiorFaceIds M ∧
    (make_flux_sparsity_pattern M sparsity).events.length =
      (interiorFaceIds M).card ∧
    (∀ e ∈ (make_flux_sparsity_pattern M sparsity).events,
      ∀ i < M.dofsPerCell, ∀ j < M.dofsPerCell,
        (M.cellDof e.1 i, M.cellDof e.2.1 j) ∈
          (make_flux_sparsity_pattern M sparsity).sp ∧
        (M.cellDof e.2.1 i, M.cellDof e.1 j) ∈
          (make_flux_sparsity_pattern M sparsity).sp) ∧
    (∀ c < M.nCells, ∀ f < M.facesPerCell, M.atBoundary c f = false →
      ∃ e ∈ (make_flux_sparsity_pattern M sparsity).events,
        e.2.2 = M.faceId c f ∧
        ((e.1 = c ∧ e.2.1 = M.neighbor c f) ∨
          (e.1 = M.neighbor c f ∧ e.2.1 = c))) := by
  have hfilter : (List.range M.nCells).filter (fun c => !M.hasChildren c) =
      List.range M.nCells := by
    apply List.filter_eq_self.mpr
    intro c hcmem
    simp [hU.1 c (List.mem_range.mp hcmem)]
  have hstart : FluxInv M
      { sp := sparsity, flags := ∅, events := ([] : List (Nat × Nat × Nat)) } := by
    refine ⟨by simp, by simp, by simp, by simp⟩
  obtain ⟨hInvF, hsub, hcover⟩ := cells_fold M hU (List.range M.nCells)
    (fun c hc => List.mem_range.mp hc)
    { sp := sparsity, flags := ∅, events := [] } hstart
  have hres : make_flux_sparsity_pattern M sparsity =
      (List.range M.nCells).foldl (fun st c =>
        (List.range M.facesPerCell).foldl (processFace M c)
          { st with sp := addCellCross M c st.sp })
        { sp := sparsity, flags := ∅, events := [] } := by
    unfold make_flux_sparsity_pattern
    rw [hfilter]
  rw [hres]
  obtain ⟨hfl, hnd, hprov, hcup⟩ := hInvF
  have hflags : ((List.range M.nCells).foldl (fun st c =>
      (List.range M.facesPerCell).foldl (processFace M c)
        { st with sp := addCellCross M c st.sp })
      { sp := sparsity, flags := ∅, events := [] }).flags =
      interiorFaceIds M := by
    apply Finset.Subset.antisymm
    · intro x hx
      rw [hfl] at hx
      obtain ⟨e, he, rfl⟩ := List.mem_map.mp (List.mem_toFinset.mp hx)
      obtain ⟨hce, f0, hf0, hb0, _, hid0⟩ := hprov e he
      rw [hid0]
      exact (mem_interiorFaceIds M _).mpr ⟨e.1, hce, f0, hf0, hb0, rfl⟩
    · intro x hx
      obtain ⟨c, hc, f, hf, hb, rfl⟩ := (mem_interiorFaceIds M x).mp hx
      exact hcover c (List.mem_range.mpr hc) f hf hb
  refine ⟨hnd, hflags, ?_, hcup, ?_⟩
  · rw [← hflags, hfl]
    rw [List.toFinset_card_of_nodup hnd]
    rw [List.length_map]
  · intro c hc f hf hb
    have hx : M.faceId c f ∈ ((List.range M.nCells).foldl (fun st c =>
        (List.range M.facesPerCell).foldl (processFace M c)
          { st with sp := addCellCross M c st.sp })
        { sp := sparsity, flags := ∅, events := [] }).flags :=
      hcover c (List.mem_range.mpr hc) f hf hb
    rw [hfl] at hx
    obtain ⟨e, he, heq⟩ := List.mem_map.mp (List.mem_toFinset.mp hx)
    obtain ⟨hce, f0, hf0, hb0, hnb0, hid0⟩ := hprov e he
    refine ⟨e, he, heq, ?_⟩
    have hfaceeq : M.faceId e.1 f0 = M.faceId c f := by
      rw [← hid0, heq]
    rcases hU.2.2 e.1 hce f0 hf0 c hc f hf hfaceeq with
      ⟨hc1, hf1⟩ | ⟨_, hc2, hf2⟩
    · subst hc1
      subst hf1
      exact Or.inl ⟨rfl, hnb0.symm ▸ rfl⟩
    · obtain ⟨_, _, _, _, hsymm, _, _, _⟩ :=
        hU.2.1 e.1 hce f0 hf0 hb0
      refine Or.inr ⟨?_, ?_⟩
      · rw [hc2, hf2, hsymm]
      · rw [hnb0, ← hc2]

/-- A concrete uniform two-cell mesh sharing one interior face (identity
1): cell 0's face 1 and cell 1's face 0 are the same face, the outer
faces are boundary. -/
def fluxMesh2 : FluxMesh where
  nCells := 2
  dofsPerCell := 1
  facesPerCell := 2
  subfacesPerFace := 2
  cellDof := fun c _ => c
  level := fun _ => 0
  hasChildren := fun _ => false
  atBoundary := fun c f => c == f
  neighbor := fun c _ => 1 - c
  neighborOfNeighbor := fun _ f => 1 - f
  faceId := fun c f => if c = 0 then f else f + 1
  child := fun _ _ => 0
  childCellOnFace := fun _ _ => 0

/-- Witness for C1: the two-cell mesh is uniform and its flux traversal
processes its single interior face exactly once. -/
theorem make_flux_sparsity_pattern_face_once_witness :
    UniformMesh fluxMesh2 ∧
    (((make_flux_sparsity_pattern fluxMesh2 ∅).events.map
      (fun e => e.2.2)).Nodup ∧
    (make_flux_sparsity_pattern fluxMesh2 ∅).flags =
      interiorFaceIds fluxMesh2 ∧
    (make_flux_sparsity_pattern fluxMesh2 ∅).events.length =
      (interiorFaceIds fluxMesh2).card ∧
    (∀ e ∈ (make_flux_sparsity_pattern fluxMesh2 ∅).events,
      ∀ i < fluxMesh2.dofsPerCell, ∀ j < fluxMesh2.dofsPerCell,
        (fluxMesh2.cellDof e.1 i, fluxMesh2.cellDof e.2.1 j) ∈
          (make_flux_sparsity_pattern fluxMesh2 ∅).sp ∧
        (fluxMesh2.cellDof e.2.1 i, fluxMesh2.cellDof e.1 j) ∈
          (make_flux_sparsity_pattern fluxMesh2 ∅).sp) ∧
    (∀ c < fluxMesh2.nCells, ∀ f < fluxMesh2.facesPerCell,
      fluxMesh2.atBoundary c f = false →
      ∃ e ∈ (make_flux_sparsity_pattern fluxMesh2 ∅).events,
        e.2.2 = fluxMesh2.faceId c f ∧
        ((e.1 = c ∧ e.2.1 = fluxMesh2.neighbor c f) ∨
          (e.1 = fluxMesh2.neighbor c f ∧ e.2.1 = c)))) :=
  ⟨by decide, make_flux_sparsity_pattern_face_once fluxMesh2 (by decide) ∅⟩

end DealII
